import Mathlib

/-!
Verification development for the cloud-budgetter core: the versioned budget
state model (reducer), the propagation engine, the cost formula, the compare
engine, the version merge protocol and the transient edit session.

The embedding follows the TypeScript source closely:
- JavaScript numbers are modelled as rationals (ℚ).
- A `ServiceBudget` (`Record<number, BudgetMonthEntry>`) is an association
  list keyed by month index; integer-keyed JavaScript objects iterate their
  keys in ascending numeric order, so insertion keeps keys ordered.
- `BudgetData` (`Record<string, ServiceBudget>`) is an association list in
  insertion order; overwriting an existing key keeps its position.
- A `BudgetMonthEntry`'s four fields are `Option`-valued because a JS object
  of that shape can lack keys (e.g. the object produced by spreading
  `undefined`); a well-formed entry has all four fields present.
- Code that can raise a `TypeError` (reading a property of `undefined`) is
  modelled in the `Option` monad, `none` meaning the dispatch throws.
- `Date.now()`, `new Date()` and `crypto.randomUUID()` are supplied to the
  reducer through an `Oracle` argument.
- `JSON.parse(JSON.stringify(x))` is a deep structural copy, which for
  immutable values is the value itself.
-/

namespace CB

/-- One `(service, month, field)` cell: `{ value, isOverridden }`. -/
structure PropagatedField where
  value : ℚ
  isOverridden : Bool
deriving DecidableEq, Repr

/-- The four budget fields of a month (`BudgetFieldKey`). -/
inductive BudgetFieldKey where
  | consumption
  | efficiency
  | overhead
  | discount
deriving DecidableEq, Repr

/-- One month's record of the four propagated fields. The fields are
`Option`-valued so that partially-constructed JS objects (spread of
`undefined`) are representable; a well-formed entry has all four present. -/
structure BudgetMonthEntry where
  consumption : Option PropagatedField
  efficiency : Option PropagatedField
  overhead : Option PropagatedField
  discount : Option PropagatedField
deriving DecidableEq, Repr

/-- The JS object `{}`. -/
def emptyMonthEntry : BudgetMonthEntry := ⟨none, none, none, none⟩

/-- Dynamic field read `entry[field]`. -/
def BudgetMonthEntry.get (e : BudgetMonthEntry) : BudgetFieldKey → Option PropagatedField
  | .consumption => e.consumption
  | .efficiency => e.efficiency
  | .overhead => e.overhead
  | .discount => e.discount

/-- Dynamic field write `{ ...entry, [field]: pf }`. -/
def BudgetMonthEntry.set (e : BudgetMonthEntry) (f : BudgetFieldKey)
    (pf : Option PropagatedField) : BudgetMonthEntry :=
  match f with
  | .consumption => { e with consumption := pf }
  | .efficiency => { e with efficiency := pf }
  | .overhead => { e with overhead := pf }
  | .discount => { e with discount := pf }

/-- `ServiceBudget = Record<number, BudgetMonthEntry>`: association list with
keys kept in ascending order (JS integer-key iteration order). -/
abbrev ServiceBudget := List (Nat × BudgetMonthEntry)

/-- Key lookup `sb[i]` (gives `undefined` when absent). -/
def sbGet : ServiceBudget → Nat → Option BudgetMonthEntry
  | [], _ => none
  | (j, e) :: rest, i => if i = j then some e else sbGet rest i

/-- Key assignment `sb[i] = e`: overwrite in place, or insert keeping the
ascending integer-key order of JS objects. -/
def sbSet : ServiceBudget → Nat → BudgetMonthEntry → ServiceBudget
  | [], i, e => [(i, e)]
  | (j, x) :: rest, i, e =>
    if i = j then (i, e) :: rest
    else if i < j then (i, e) :: (j, x) :: rest
    else (j, x) :: sbSet rest i e

/-- `BudgetData = Record<string, ServiceBudget>`: association list in
insertion order (JS string-key iteration order). -/
abbrev BudgetData := List (String × ServiceBudget)

/-- Key lookup `bd[k]`. -/
def bdGet : BudgetData → String → Option ServiceBudget
  | [], _ => none
  | (j, v) :: rest, k => if k = j then some v else bdGet rest k

/-- `{ ...bd, [k]: v }`: overwrite keeps the key's position, a fresh key is
appended at the end. -/
def bdSet : BudgetData → String → ServiceBudget → BudgetData
  | [], k, v => [(k, v)]
  | (j, x) :: rest, k, v =>
    if k = j then (k, v) :: rest else (j, x) :: bdSet rest k v

/-- `const { [k]: _, ...rest } = bd` — removal of a key. -/
def bdRemove (bd : BudgetData) (k : String) : BudgetData :=
  bd.filter (fun p => p.1 != k)

/-- A catalogue entry (`Service`). -/
structure Service where
  id : String
  name : String
  unitType : String
  unitCost : ℚ
  discountEligible : Bool
  defaultEfficiency : ℚ
  defaultOverhead : ℚ
  createdAt : Int
deriving DecidableEq, Repr

/-- `BudgetConfig`: presentational start month/year. -/
structure BudgetConfig where
  startMonth : Int
  startYear : Int
deriving DecidableEq, Repr

/-- `ModelData`: one model's working dataset. -/
structure ModelData where
  services : List Service
  budgetConfig : BudgetConfig
  budgetData : BudgetData
deriving DecidableEq, Repr

/-- A saved `Version` snapshot. -/
structure Version where
  number : Int
  name : String
  timestamp : Int
  shared : Bool
  data : ModelData
deriving DecidableEq, Repr

/-- A `BudgetModel`: working data plus version history. -/
structure BudgetModel where
  id : String
  name : String
  createdAt : Int
  updatedAt : Int
  data : ModelData
  versions : List Version
deriving DecidableEq, Repr

/-- The root `AppState`. -/
structure AppState where
  schemaVersion : Int
  models : List BudgetModel
  activeModelId : Option String
deriving DecidableEq, Repr

/-! ## Cost formula (`src/utils/calculations.ts`) -/

/-- `calculateMonthCost` from `calculations.ts`. -/
def calculateMonthCost (consumption unitCost efficiency overhead discount : ℚ)
    (discountEligible : Bool) : ℚ :=
  let safeEfficiency := max efficiency 1
  let effectiveDiscount := if discountEligible then discount else 0
  let cost :=
    consumption * unitCost * (1 + overhead / 100) / (safeEfficiency / 100) *
      (1 - effectiveDiscount / 100)
  max cost 0

/-! ## Reducer state machine (`src/context/AppContext.tsx`) -/

/-- Ambient values read by the reducer: `crypto.randomUUID()`, `Date.now()`,
and the `new Date()` month/year used by `createDefaultModelData`. -/
structure Oracle where
  freshId : String
  now : Int
  nowMonth : Int
  nowYear : Int
deriving DecidableEq, Repr

/-- `createDefaultModelData`. -/
def createDefaultModelData (o : Oracle) : ModelData :=
  ⟨[], ⟨o.nowMonth, o.nowYear⟩, []⟩

/-- The optional consumption seed (`InitialBudgetSeed`). -/
structure InitialBudgetSeed where
  consumption : ℚ
  monthlyGrowth : ℚ
deriving DecidableEq, Repr

/-- `createServiceBudget`: a fresh 12-month budget, optionally pre-seeded
with a linear consumption ramp, clamped at 0 (`Math.max(consumption, 0)`).
The flag is `i > 0 && seed ? true : false`. -/
def createServiceBudget (defaultEfficiency defaultOverhead : ℚ)
    (seed : Option InitialBudgetSeed) : ServiceBudget :=
  (List.range 12).map (fun (i : Nat) =>
    let consumption : ℚ :=
      match seed with
      | some s => s.consumption + s.monthlyGrowth * (i : ℚ)
      | none => 0
    (i, ⟨some ⟨max consumption 0, decide (0 < i) && seed.isSome⟩,
         some ⟨defaultEfficiency, false⟩,
         some ⟨defaultOverhead, false⟩,
         some ⟨0, false⟩⟩))

/-- `Omit<Service, 'id' | 'createdAt'>` — the ADD_SERVICE payload. -/
structure ServicePayload where
  name : String
  unitType : String
  unitCost : ℚ
  discountEligible : Bool
  defaultEfficiency : ℚ
  defaultOverhead : ℚ
deriving DecidableEq, Repr

/-- The tagged action union `AppAction`. -/
inductive AppAction where
  | createModel (name : String)
  | renameModel (modelId : String) (name : String)
  | deleteModel (modelId : String)
  | switchModel (modelId : String)
  | duplicateModel (modelId : String) (name : String)
  | saveVersion (name : String) (shared : Option Bool)
  | restoreVersion (versionNumber : Int)
  | deleteVersion (versionNumber : Int)
  | toggleVersionShared (versionNumber : Int)
  | addService (payload : ServicePayload) (seed : Option InitialBudgetSeed)
  | updateService (payload : Service)
  | deleteService (serviceId : String)
  | setBudgetConfig (payload : BudgetConfig)
  | setBudgetField (serviceId : String) (monthIndex : Nat)
      (field : BudgetFieldKey) (value : ℚ)
  | clearOverride (serviceId : String) (monthIndex : Nat) (field : BudgetFieldKey)
  | setServiceBudget (serviceId : String) (serviceBudget : ServiceBudget)
  | importModel (payload : BudgetModel)
  | importModelMerge (payload : BudgetModel)
  | loadState (payload : AppState)
deriving DecidableEq, Repr

/-- `updateMonthField(entry, field, value, isOverridden)`. The entry argument
is `Option` because the reducer passes `serviceBudget[monthIndex]`, which can
be `undefined`; spreading `undefined` yields the empty object. -/
def updateMonthField (entry : Option BudgetMonthEntry) (field : BudgetFieldKey)
    (value : ℚ) (isOverridden : Bool) : BudgetMonthEntry :=
  (entry.getD emptyMonthEntry).set field (some ⟨value, isOverridden⟩)

/-- `updateActiveModelData(state, updater)`; `now` stands for the
`Date.now()` stamped into `updatedAt`. The updater runs in `Option` because
the budget-field updaters can raise. -/
def updateActiveModelData (now : Int) (state : AppState)
    (updater : ModelData → Option ModelData) : Option AppState := do
  let models ← state.models.mapM (fun m =>
    if state.activeModelId = some m.id then do
      let d ← updater m.data
      pure { m with data := d, updatedAt := now }
    else
      pure m)
  pure { state with models := models }

/-- The `for (let i = 1; i < 12; i++)` propagation loop of SET_BUDGET_FIELD:
months whose field is not currently overridden receive the new baseline.
Reading `serviceBudget[i][field].isOverridden` throws when the month entry or
the field is absent. -/
def propagateBaseline (field : BudgetFieldKey) (value : ℚ) :
    List Nat → ServiceBudget → Option ServiceBudget
  | [], sb => some sb
  | i :: rest, sb => do
    let e ← sbGet sb i
    let pf ← e.get field
    let sb :=
      if pf.isOverridden then sb
      else sbSet sb i (updateMonthField (some e) field value false)
    propagateBaseline field value rest sb

/-- The data updater of the SET_BUDGET_FIELD case. Note
`const serviceBudget = { ...data.budgetData[serviceId] }` spreads a possibly
missing entry into an (empty) object, so the `if (!serviceBudget)` guard can
never fire; a missing service id therefore reaches the month accesses. -/
def setBudgetFieldData (serviceId : String) (monthIndex : Nat)
    (field : BudgetFieldKey) (value : ℚ) (data : ModelData) : Option ModelData :=
  let serviceBudget := (bdGet data.budgetData serviceId).getD []
  if monthIndex = 0 then do
    let sb := sbSet serviceBudget 0
      (updateMonthField (sbGet serviceBudget 0) field value false)
    let sb ← propagateBaseline field value (List.range' 1 11) sb
    pure { data with budgetData := bdSet data.budgetData serviceId sb }
  else
    pure { data with budgetData := (bdSet data.budgetData serviceId
      (sbSet serviceBudget monthIndex
        (updateMonthField (sbGet serviceBudget monthIndex) field value true))) }

/-- The data updater of the CLEAR_OVERRIDE case (the `monthIndex === 0` early
return happens before this). `serviceBudget[0][field].value` throws when the
month-0 entry or the field is absent — in particular for a missing service id,
since the spread turns the missing budget into an empty object. -/
def clearOverrideData (serviceId : String) (monthIndex : Nat)
    (field : BudgetFieldKey) (data : ModelData) : Option ModelData := do
  let serviceBudget := (bdGet data.budgetData serviceId).getD []
  let e0 ← sbGet serviceBudget 0
  let pf0 ← e0.get field
  let sourceValue := pf0.value
  pure { data with budgetData := (bdSet data.budgetData serviceId
    (sbSet serviceBudget monthIndex
      (updateMonthField (sbGet serviceBudget monthIndex) field sourceValue false))) }

/-- Stable ascending sort by timestamp (JS `Array.prototype.sort` with
comparator `(a, b) => a.timestamp - b.timestamp` is a stable ascending
sort; insertion sort realizes exactly that). -/
def sortByTimestamp (l : List Version) : List Version :=
  List.insertionSort (fun a b => a.timestamp ≤ b.timestamp) l

/-- `merged.forEach((v, i) => { v.number = i + 1 })` starting at `n`. -/
def renumberFrom (n : Int) : List Version → List Version
  | [] => []
  | v :: vs => { v with number := n } :: renumberFrom (n + 1) vs

/-- `mergeVersions(local, imported)` from `dataIO.ts`: union in imported
versions with novel timestamps, sort by timestamp, renumber from 1. -/
def mergeVersions (localVersions imported : List Version) : List Version :=
  let existingTimestamps := localVersions.map (·.timestamp)
  let newVersions :=
    imported.filter (fun v => !(existingTimestamps.contains v.timestamp))
  renumberFrom 1 (sortByTimestamp (localVersions ++ newVersions))

/-- `appReducer(state, action)`, with the oracle for `Date.now()` /
`crypto.randomUUID()`. `none` means the dispatch throws a `TypeError`. -/
def appReducer (o : Oracle) (state : AppState) (action : AppAction) :
    Option AppState :=
  match action with
  | .createModel name =>
    let newModel : BudgetModel :=
      ⟨o.freshId, name, o.now, o.now, createDefaultModelData o, []⟩
    some { state with models := state.models ++ [newModel],
                      activeModelId := some newModel.id }
  | .renameModel modelId name =>
    some { state with models := state.models.map (fun m =>
      if m.id = modelId then { m with name := name, updatedAt := o.now } else m) }
  | .deleteModel modelId =>
    let remaining := state.models.filter (fun m => m.id != modelId)
    some { state with
      models := remaining,
      activeModelId :=
        if state.activeModelId = some modelId then remaining.head?.map (·.id)
        else state.activeModelId }
  | .switchModel modelId =>
    some { state with activeModelId := some modelId }
  | .duplicateModel modelId name =>
    match state.models.find? (fun m => m.id == modelId) with
    | none => some state
    | some source =>
      let newModel : BudgetModel :=
        ⟨o.freshId, name, o.now, o.now, source.data, []⟩
      some { state with models := state.models ++ [newModel],
                        activeModelId := some newModel.id }
  | .saveVersion name shared =>
    match state.models.find? (fun m => some m.id == state.activeModelId) with
    | none => some state
    | some activeModel =>
      let nextNumber : Int :=
        match activeModel.versions.map (·.number) with
        | [] => 1
        | n :: ns => ns.foldl max n + 1
      let newVersion : Version :=
        ⟨nextNumber, name, o.now, shared.getD false, activeModel.data⟩
      some { state with models := state.models.map (fun m =>
        if some m.id == state.activeModelId then
          { m with versions := m.versions ++ [newVersion], updatedAt := o.now }
        else m) }
  | .restoreVersion versionNumber =>
    match state.models.find? (fun m => some m.id == state.activeModelId) with
    | none => some state
    | some model =>
      match model.versions.find? (fun v => v.number == versionNumber) with
      | none => some state
      | some version =>
        some { state with models := state.models.map (fun m =>
          if some m.id == state.activeModelId then
            { m with data := version.data, updatedAt := o.now }
          else m) }
  | .deleteVersion versionNumber =>
    some { state with models := state.models.map (fun m =>
      if some m.id == state.activeModelId then
        { m with versions := m.versions.filter (fun v => v.number != versionNumber),
                 updatedAt := o.now }
      else m) }
  | .toggleVersionShared versionNumber =>
    some { state with models := state.models.map (fun m =>
      if some m.id == state.activeModelId then
        let toggled := m.versions.map (fun v =>
          if v.number = versionNumber then { v with shared := !v.shared } else v)
        { m with versions := toggled, updatedAt := o.now }
      else m) }
  | .addService payload seed =>
    let newService : Service :=
      ⟨o.freshId, payload.name, payload.unitType, payload.unitCost,
       payload.discountEligible, payload.defaultEfficiency,
       payload.defaultOverhead, o.now⟩
    let newBudget :=
      createServiceBudget newService.defaultEfficiency newService.defaultOverhead seed
    updateActiveModelData o.now state (fun data =>
      some { data with services := data.services ++ [newService],
                       budgetData := bdSet data.budgetData newService.id newBudget })
  | .updateService payload =>
    updateActiveModelData o.now state (fun data =>
      some { data with services := data.services.map (fun s =>
        if s.id = payload.id then payload else s) })
  | .deleteService serviceId =>
    updateActiveModelData o.now state (fun data =>
      some { data with services := data.services.filter (fun s => s.id != serviceId),
                       budgetData := bdRemove data.budgetData serviceId })
  | .setBudgetConfig payload =>
    updateActiveModelData o.now state (fun data =>
      some { data with budgetConfig := payload })
  | .setBudgetField serviceId monthIndex field value =>
    updateActiveModelData o.now state (setBudgetFieldData serviceId monthIndex field value)
  | .clearOverride serviceId monthIndex field =>
    if monthIndex = 0 then some state
    else updateActiveModelData o.now state (clearOverrideData serviceId monthIndex field)
  | .setServiceBudget serviceId serviceBudget =>
    updateActiveModelData o.now state (fun data =>
      some { data with budgetData := bdSet data.budgetData serviceId serviceBudget })
  | .importModel imported =>
    if state.models.any (fun m => m.id == imported.id) then
      some { state with
        models := state.models.map (fun m => if m.id = imported.id then imported else m),
        activeModelId := some imported.id }
    else
      some { state with models := state.models ++ [imported],
                        activeModelId := some imported.id }
  | .importModelMerge imported =>
    match state.models.find? (fun m => m.id == imported.id) with
    | none => some state
    | some existing =>
      let existingTimestamps := existing.versions.map (·.timestamp)
      let newVersions :=
        imported.versions.filter (fun v => !(existingTimestamps.contains v.timestamp))
      let merged := renumberFrom 1 (sortByTimestamp (existing.versions ++ newVersions))
      some { state with models := state.models.map (fun m =>
        if m.id = imported.id then { m with versions := merged, updatedAt := o.now }
        else m) }
  | .loadState payload => some payload

/-! ## Compare engine (`src/utils/compare.ts`) -/

/-- Classification of a service in a comparison. -/
inductive DiffStatus where
  | added
  | removed
  | changed
  | unchanged
deriving DecidableEq, Repr

/-- A single differing `(field, month)` cell. -/
structure FieldDiff where
  field : BudgetFieldKey
  month : Nat
  oldValue : ℚ
  newValue : ℚ
deriving DecidableEq, Repr

/-- Per-service comparison outcome. -/
structure ServiceDiff where
  serviceId : String
  serviceName : String
  status : DiffStatus
  fieldDiffs : List FieldDiff
  oldTotalCost : ℚ
  newTotalCost : ℚ
deriving DecidableEq, Repr

/-- Result of `compareModelData`. -/
structure CompareResult where
  services : List ServiceDiff
  oldGrandTotal : ℚ
  newGrandTotal : ℚ
deriving DecidableEq, Repr

/-- The `FIELDS` constant of `compare.ts`. -/
def FIELDS : List BudgetFieldKey :=
  [.consumption, .efficiency, .overhead, .discount]

/-- `computeServiceTotal(data, serviceId)`: 0 when the service or its budget
is missing; missing months are skipped (`if (!e) continue`); reading `.value`
of a missing field of a present month throws. -/
def computeServiceTotal (data : ModelData) (serviceId : String) : Option ℚ :=
  match data.services.find? (fun s => s.id == serviceId),
        bdGet data.budgetData serviceId with
  | some service, some budget =>
    (List.range 12).foldlM (fun total m =>
      match sbGet budget m with
      | none => some total
      | some e => do
        let c ← e.get .consumption
        let eff ← e.get .efficiency
        let ov ← e.get .overhead
        let d ← e.get .discount
        some (total + calculateMonthCost c.value service.unitCost eff.value
          ov.value d.value service.discountEligible)) 0
  | _, _ => some 0

/-- `budget[m]?.[field]?.value ?? 0`. -/
def fieldValue (budget : ServiceBudget) (m : Nat) (field : BudgetFieldKey) : ℚ :=
  (((sbGet budget m).bind (fun e => e.get field)).map (·.value)).getD 0

/-- The `for (m) for (field)` double loop collecting `FieldDiff`s for a
service present in both datasets. -/
def diffsFor (oldBudget newBudget : ServiceBudget) : List FieldDiff :=
  (List.range 12).flatMap (fun m =>
    FIELDS.filterMap (fun field =>
      let oldVal := fieldValue oldBudget m field
      let newVal := fieldValue newBudget m field
      if oldVal ≠ newVal then some ⟨field, m, oldVal, newVal⟩ else none))

/-- One iteration of the `for (const id of allServiceIds)` loop: the diff plus
the id's contribution to the two grand totals. -/
def compareOne (older newer : ModelData) (id : String) :
    Option (ServiceDiff × ℚ × ℚ) := do
  let inOld := older.services.find? (fun s => s.id == id)
  let inNew := newer.services.find? (fun s => s.id == id)
  let oldCost ← computeServiceTotal older id
  let newCost ← computeServiceTotal newer id
  match inOld, inNew with
  | none, some snew =>
    pure (⟨id, snew.name, .added, [], 0, newCost⟩, oldCost, newCost)
  | some sold, none =>
    pure (⟨id, sold.name, .removed, [], oldCost, 0⟩, oldCost, newCost)
  | _, _ =>
    let fieldDiffs :=
      match bdGet older.budgetData id, bdGet newer.budgetData id with
      | some ob, some nb => diffsFor ob nb
      | _, _ => []
    let serviceName :=
      match inNew, inOld with
      | some s, _ => s.name
      | none, some s => s.name
      | none, none => id
    pure (⟨id, serviceName,
      if fieldDiffs.length > 0 then .changed else .unchanged,
      fieldDiffs, oldCost, newCost⟩, oldCost, newCost)

/-- JS `Set` union of the two id lists: first occurrence kept, order
preserved. -/
def jsDedup (l : List String) : List String :=
  l.foldl (fun acc x => if acc.contains x then acc else acc ++ [x]) []

/-- The accumulation loop of `compareModelData`. -/
def compareLoop (older newer : ModelData) :
    List String → Option (List ServiceDiff × ℚ × ℚ)
  | [] => some ([], 0, 0)
  | id :: rest => do
    let (d, oldCost, newCost) ← compareOne older newer id
    let (ds, ot, nt) ← compareLoop older newer rest
    some (d :: ds, oldCost + ot, newCost + nt)

/-- `compareModelData(older, newer)`. -/
def compareModelData (older newer : ModelData) : Option CompareResult := do
  let allServiceIds :=
    jsDedup (older.services.map (·.id) ++ newer.services.map (·.id))
  let (ds, ot, nt) ← compareLoop older newer allServiceIds
  pure ⟨ds, ot, nt⟩

/-! ## Transient edit session (`BudgetAdjustModal.tsx`) -/

/-- `Math.round`: round half toward positive infinity. -/
def jsRound (q : ℚ) : ℚ := ((⌊q + 1 / 2⌋ : ℤ) : ℚ)

/-- `deepCloneBudget(sb)`: clones months 0–11; `sb[i].consumption` throws
when a month entry is absent. Spread-copies of the (immutable) field values
are the values themselves. -/
def deepCloneBudget (sb : ServiceBudget) : Option ServiceBudget :=
  (List.range 12).mapM (fun i => do
    let e ← sbGet sb i
    pure (i, e))

/-- The transient edit session state. -/
structure EditState where
  current : ServiceBudget
  undoStack : List ServiceBudget
  redoStack : List ServiceBudget
  preChange : Option ServiceBudget
deriving DecidableEq, Repr

/-- The edit-session action union. -/
inductive EditAction where
  | setValue (monthIndex : Nat) (field : BudgetFieldKey) (value : ℚ)
  | setFieldCommit (monthIndex : Nat) (field : BudgetFieldKey) (value : ℚ)
  | clearOverride (monthIndex : Nat) (field : BudgetFieldKey)
  | bulkAdjust (field : BudgetFieldKey) (fromMonth : Nat) (multiplier : ℚ)
      (min : ℚ) (compound : Bool)
  | commit
  | undo
  | redo
deriving DecidableEq, Repr

/-- The baseline-propagation loop of `applyFieldChange` (same semantics as
the store's loop, written at its own source site). -/
def propagateEdit (field : BudgetFieldKey) (value : ℚ) :
    List Nat → ServiceBudget → Option ServiceBudget
  | [], sb => some sb
  | i :: rest, sb => do
    let e ← sbGet sb i
    let pf ← e.get field
    let sb :=
      if pf.isOverridden then sb
      else sbSet sb i (e.set field (some ⟨value, false⟩))
    propagateEdit field value rest sb

/-- `applyFieldChange(current, monthIndex, field, value)`. -/
def applyFieldChange (current : ServiceBudget) (monthIndex : Nat)
    (field : BudgetFieldKey) (value : ℚ) : Option ServiceBudget := do
  let next ← deepCloneBudget current
  let e ← sbGet next monthIndex
  let next := sbSet next monthIndex
    (e.set field (some ⟨value, decide (0 < monthIndex)⟩))
  if monthIndex = 0 then propagateEdit field value (List.range' 1 11) next
  else pure next

/-- The `for (m = fromMonth; m < 12; m++)` loop of BULK_ADJUST. -/
def bulkLoop (field : BudgetFieldKey) (fromMonth : Nat) (multiplier min : ℚ)
    (compound : Bool) : List Nat → ServiceBudget → Option ServiceBudget
  | [], sb => some sb
  | m :: rest, sb => do
    let e ← sbGet sb m
    let pf ← e.get field
    let base := pf.value
    let compoundMultiplier :=
      if compound then multiplier ^ (m - fromMonth + 1) else multiplier
    let newVal := max min (jsRound (base * compoundMultiplier))
    let sb := sbSet sb m (e.set field (some ⟨newVal, decide (0 < m)⟩))
    bulkLoop field fromMonth multiplier min compound rest sb

/-- `editReducer(state, action)`; `none` means the dispatch throws. -/
def editReducer (state : EditState) (action : EditAction) : Option EditState :=
  match action with
  | .setValue monthIndex field value => do
    let preChange ←
      match state.preChange with
      | some pc => some pc
      | none => deepCloneBudget state.current
    let next ← applyFieldChange state.current monthIndex field value
    some { state with current := next, preChange := some preChange }
  | .setFieldCommit monthIndex field value => do
    let snapshot ← deepCloneBudget state.current
    let next ← applyFieldChange state.current monthIndex field value
    some ⟨next, state.undoStack ++ [snapshot], [], none⟩
  | .clearOverride monthIndex field =>
    if monthIndex = 0 then some state
    else do
      let snapshot ← deepCloneBudget state.current
      let next ← deepCloneBudget state.current
      let e0 ← sbGet next 0
      let pf0 ← e0.get field
      let e ← sbGet next monthIndex
      let next := sbSet next monthIndex (e.set field (some ⟨pf0.value, false⟩))
      some ⟨next, state.undoStack ++ [snapshot], [], none⟩
  | .bulkAdjust field fromMonth multiplier min compound => do
    let snapshot ← deepCloneBudget state.current
    let next ← deepCloneBudget state.current
    let next ← bulkLoop field fromMonth multiplier min compound
      (List.range' fromMonth (12 - fromMonth)) next
    some ⟨next, state.undoStack ++ [snapshot], [], none⟩
  | .commit =>
    match state.preChange with
    | none => some state
    | some pc => some ⟨state.current, state.undoStack ++ [pc], [], none⟩
  | .undo =>
    match state.undoStack.getLast? with
    | none => some state
    | some prev => do
      let cur ← deepCloneBudget state.current
      some ⟨prev, state.undoStack.dropLast, state.redoStack ++ [cur], none⟩
  | .redo =>
    match state.redoStack.getLast? with
    | none => some state
    | some next => do
      let cur ← deepCloneBudget state.current
      some ⟨next, state.undoStack ++ [cur], state.redoStack.dropLast, none⟩

/-! ## Well-formedness predicates -/

/-- A month entry with all four fields present, as the data model demands. -/
def BudgetMonthEntry.complete (e : BudgetMonthEntry) : Bool :=
  e.consumption.isSome && e.efficiency.isSome && e.overhead.isSome &&
    e.discount.isSome

/-- All twelve months present and complete. -/
def wf12 (sb : ServiceBudget) : Bool :=
  (List.range 12).all (fun i =>
    match sbGet sb i with
    | some e => e.complete
    | none => false)

/-- A budget in the canonical dense shape produced by `deepCloneBudget`. -/
def canon12 (sb : ServiceBudget) : Prop := deepCloneBudget sb = some sb

instance (sb : ServiceBudget) : Decidable (canon12 sb) :=
  inferInstanceAs (Decidable (deepCloneBudget sb = some sb))

/-- Every stored month entry is complete (months may be absent). -/
def sbComplete (sb : ServiceBudget) : Bool :=
  sb.all (fun p => p.2.complete)

/-- Every stored budget of a dataset has only complete month entries. -/
def wfData (d : ModelData) : Bool :=
  d.budgetData.all (fun p => sbComplete p.2)

/-- Month 0 of a budget carries no override flags (data-model invariant). -/
def month0Ok (sb : ServiceBudget) : Bool :=
  match sbGet sb 0 with
  | none => true
  | some e => FIELDS.all (fun f =>
      match e.get f with
      | none => true
      | some pf => !pf.isOverridden)

/-- The month-0 invariant over one dataset. -/
def dataOk (d : ModelData) : Bool :=
  d.budgetData.all (fun p => month0Ok p.2)

/-- The month-0 invariant over a model's working data and snapshots. -/
def modelOk (m : BudgetModel) : Bool :=
  dataOk m.data && m.versions.all (fun v => dataOk v.data)

/-- The month-0 invariant over the whole application state. -/
def stateOk (s : AppState) : Bool :=
  s.models.all (fun m => modelOk m)

/-- The month-0 invariant over the whole edit session. -/
def editOk (st : EditState) : Bool :=
  month0Ok st.current && st.undoStack.all (fun b => month0Ok b) &&
    st.redoStack.all (fun b => month0Ok b) &&
    (match st.preChange with
     | none => true
     | some b => month0Ok b)

/-! ## Basic lemmas about the association-list operations -/

theorem sbGet_sbSet (sb : ServiceBudget) (i : Nat) (e : BudgetMonthEntry)
    (k : Nat) : sbGet (sbSet sb i e) k = if k = i then some e else sbGet sb k := by
  induction sb with
  | nil =>
    by_cases hk : k = i <;> simp [sbSet, sbGet, hk]
  | cons hd tl ih =>
    obtain ⟨j, x⟩ := hd
    by_cases hij : i = j
    · subst hij
      by_cases hk : k = i <;> simp [sbSet, sbGet, hk]
    · by_cases hlt : i < j
      · by_cases hk : k = i
        · subst hk
          simp [sbSet, hij, hlt, sbGet]
        · by_cases hkj : k = j <;> simp [sbSet, hij, hlt, sbGet, hk, hkj]
      · by_cases hkj : k = j
        · subst hkj
          have hki : ¬ k = i := fun h => hij h.symm
          simp [sbSet, hij, hlt, sbGet, hki]
        · simp [sbSet, hij, hlt, sbGet, hkj, ih]

theorem bdGet_bdSet (bd : BudgetData) (k : String) (v : ServiceBudget)
    (k2 : String) :
    bdGet (bdSet bd k v) k2 = if k2 = k then some v else bdGet bd k2 := by
  induction bd with
  | nil =>
    by_cases hk : k2 = k <;> simp [bdSet, bdGet, hk]
  | cons hd tl ih =>
    obtain ⟨j, x⟩ := hd
    by_cases hkj : k = j
    · subst hkj
      by_cases hk : k2 = k <;> simp [bdSet, bdGet, hk]
    · by_cases hk2j : k2 = j
      · subst hk2j
        have hne : ¬ k2 = k := fun h => hkj h.symm
        simp [bdSet, hkj, bdGet, hne]
      · simp [bdSet, hkj, bdGet, hk2j, ih]

theorem mem_sbSet {sb : ServiceBudget} {i : Nat} {e : BudgetMonthEntry}
    {p : Nat × BudgetMonthEntry} (h : p ∈ sbSet sb i e) :
    p = (i, e) ∨ p ∈ sb := by
  induction sb with
  | nil => simpa [sbSet] using h
  | cons hd tl ih =>
    obtain ⟨j, x⟩ := hd
    by_cases hij : i = j
    · subst hij
      rcases (by simpa [sbSet] using h : p = (i, e) ∨ p ∈ tl) with h1 | h1
      · exact Or.inl h1
      · exact Or.inr (List.mem_cons_of_mem _ h1)
    · by_cases hlt : i < j
      · rcases (by simpa [sbSet, hij, hlt] using h :
          p = (i, e) ∨ p = (j, x) ∨ p ∈ tl) with h1 | h1 | h1
        · exact Or.inl h1
        · exact Or.inr (by simp [h1])
        · exact Or.inr (List.mem_cons_of_mem _ h1)
      · rcases (by simpa [sbSet, hij, hlt] using h :
          p = (j, x) ∨ p ∈ sbSet tl i e) with h1 | h1
        · exact Or.inr (by simp [h1])
        · rcases ih h1 with h2 | h2
          · exact Or.inl h2
          · exact Or.inr (List.mem_cons_of_mem _ h2)

theorem mem_bdSet {bd : BudgetData} {k : String} {v : ServiceBudget}
    {p : String × ServiceBudget} (h : p ∈ bdSet bd k v) :
    p = (k, v) ∨ p ∈ bd := by
  induction bd with
  | nil => simpa [bdSet] using h
  | cons hd tl ih =>
    obtain ⟨j, x⟩ := hd
    by_cases hkj : k = j
    · subst hkj
      rcases (by simpa [bdSet] using h : p = (k, v) ∨ p ∈ tl) with h1 | h1
      · exact Or.inl h1
      · exact Or.inr (List.mem_cons_of_mem _ h1)
    · rcases (by simpa [bdSet, hkj] using h :
        p = (j, x) ∨ p ∈ bdSet tl k v) with h1 | h1
      · exact Or.inr (by simp [h1])
      · rcases ih h1 with h2 | h2
        · exact Or.inl h2
        · exact Or.inr (List.mem_cons_of_mem _ h2)

theorem BudgetMonthEntry.get_set (e : BudgetMonthEntry) (f g : BudgetFieldKey)
    (pf : Option PropagatedField) :
    (e.set f pf).get g = if g = f then pf else e.get g := by
  cases f <;> cases g <;>
    simp [BudgetMonthEntry.set, BudgetMonthEntry.get]

theorem mapM_of_some {α β : Type} (f : α → Option β) (g : α → β)
    (h : ∀ x, f x = some (g x)) : ∀ l : List α, l.mapM f = some (l.map g) := by
  intro l
  induction l with
  | nil => rfl
  | cons a t ih => rw [List.mapM_cons, h, ih]; rfl

theorem updateActiveModelData_total (now : Int) (s : AppState)
    (u : ModelData → ModelData) :
    updateActiveModelData now s (fun d => some (u d)) =
      some { s with models := s.models.map (fun m =>
        if s.activeModelId = some m.id then
          { m with data := u m.data, updatedAt := now }
        else m) } := by
  unfold updateActiveModelData
  rw [mapM_of_some _ (fun m =>
    if s.activeModelId = some m.id then
      { m with data := u m.data, updatedAt := now }
    else m)]
  · rfl
  · intro m
    by_cases h : s.activeModelId = some m.id <;> simp [h]

theorem sbGet_range_map (g : Nat → BudgetMonthEntry) :
    ∀ (n s i : Nat), sbGet ((List.range' s n).map (fun j => (j, g j))) i =
      if s ≤ i ∧ i < s + n then some (g i) else none := by
  intro n
  induction n with
  | zero =>
    intro s i
    have h : ¬ (s ≤ i ∧ i < s + 0) := by omega
    rw [if_neg h]
    rfl
  | succ n ih =>
    intro s i
    show sbGet (((s :: List.range' (s + 1) n)).map (fun j => (j, g j))) i = _
    by_cases hi : i = s
    · subst hi
      have h : i ≤ i ∧ i < i + (n + 1) := by omega
      simp [sbGet, h]
    · have : (s ≤ i ∧ i < s + (n + 1)) ↔ (s + 1 ≤ i ∧ i < (s + 1) + n) := by omega
      simp [sbGet, hi, ih, this]

/-! ## Shared concrete sample values -/

/-- A fixed oracle for concrete computations. -/
def sampleOracle : Oracle := ⟨"fresh-id", 1000, 0, 2026⟩

/-- An empty working dataset. -/
def emptyData : ModelData := ⟨[], ⟨0, 2026⟩, []⟩

/-- A single empty model. -/
def model1 : BudgetModel := ⟨"m1", "Model One", 0, 0, emptyData, []⟩

/-- A state holding `model1` as the active model. -/
def state1 : AppState := ⟨3, [model1], some "m1"⟩

/-! ## C4 — cost formula -/

/-- C4: for all inputs, `calculateMonthCost` equals
`max 0 (consumption * unitCost * (1 + overhead/100) / (max(efficiency,1)/100)
* (1 - d/100))` with `d = discount` iff eligible; the result is never
negative; and efficiency below 1 behaves exactly like efficiency 1. -/
theorem budgetter_C4_cost_formula (c u e o d : ℚ) (elig : Bool) :
    calculateMonthCost c u e o d elig =
      max 0 (c * u * (1 + o / 100) / (max e 1 / 100) *
        (1 - (if elig then d else 0) / 100)) ∧
    0 ≤ calculateMonthCost c u e o d elig ∧
    (e ≤ 1 → calculateMonthCost c u e o d elig =
      calculateMonthCost c u 1 o d elig) := by
  refine ⟨by simp [calculateMonthCost, max_comm], by simp [calculateMonthCost], ?_⟩
  intro he
  simp [calculateMonthCost, max_eq_right he]

/-- Witness for C4 at concrete inputs. -/
theorem budgetter_C4_witness :
    calculateMonthCost 100 2 0 0 0 false = calculateMonthCost 100 2 1 0 0 false ∧
    0 ≤ calculateMonthCost 100 2 50 0 0 false :=
  ⟨(budgetter_C4_cost_formula 100 2 0 0 0 false).2.2 (by norm_num),
   (budgetter_C4_cost_formula 100 2 50 0 0 false).2.1⟩

/-! ## C1 — totality of the reducer on missing targets (code bug) -/

/-- C1 (code-bug evidence): with an active model whose `budgetData` has no
entry for `"ghost"`, SET_BUDGET_FIELD at month 0 and CLEAR_OVERRIDE throw
(the spread `{ ...data.budgetData[serviceId] }` turns the missing budget
into an empty object, so the missing-service guard never fires and the month
accesses blow up), and SET_BUDGET_FIELD at month 3 silently changes the
state instead of returning it unchanged. -/
theorem budgetter_C1_missing_service :
    appReducer sampleOracle state1 (.setBudgetField "ghost" 0 .consumption 5) =
      none ∧
    appReducer sampleOracle state1 (.clearOverride "ghost" 3 .consumption) =
      none ∧
    (appReducer sampleOracle state1
      (.setBudgetField "ghost" 3 .consumption 5)).isSome = true ∧
    appReducer sampleOracle state1 (.setBudgetField "ghost" 3 .consumption 5) ≠
      some state1 := by
  refine ⟨by decide, by decide, by decide, by decide⟩

/-! ## C7 — seeded service creation (corrected: the ramp is clamped at 0) -/

/-- C7 (counterexample): ADD_SERVICE with seed base 1, growth −1 stores
consumption 0 at month 2 (the code clamps with `Math.max(consumption, 0)`),
not `base + growth*i = −1` as the claim states. -/
theorem budgetter_C7_counterexample :
    (appReducer sampleOracle state1
        (.addService ⟨"Svc", "GB", 1, false, 80, 10⟩ (some ⟨1, -1⟩))).map
      (fun s => s.models.map (fun m =>
        (bdGet m.data.budgetData "fresh-id").map
          (fun sb => fieldValue sb 2 .consumption))) = some [some 0] ∧
    (0 : ℚ) ≠ 1 + (-1) * 2 := by
  refine ⟨?_, by norm_num⟩
  have hcsb : createServiceBudget 80 10 (some ⟨1, -1⟩) =
      (List.range' 0 12).map (fun j =>
        (j, ⟨some ⟨max (1 + (-1) * (j : ℚ)) 0, decide (0 < j)⟩,
             some ⟨80, false⟩, some ⟨10, false⟩, some ⟨0, false⟩⟩)) := rfl
  have hmax : max ((1 : ℚ) + (-1) * ((2 : Nat) : ℚ)) 0 = 0 := by
    rw [max_eq_right]
    push_cast
    norm_num
  simp only [appReducer]
  rw [updateActiveModelData_total]
  simp [state1, model1, emptyData, sampleOracle, bdSet, bdGet, hcsb,
    fieldValue, sbGet_range_map, hmax, BudgetMonthEntry.get]

/-- C7 (amended): the seeded budget's consumption at month `i` is
`max (base + growth*i) 0`, with months ≥ 1 marked overridden and month 0
unoverridden; efficiency and overhead are seeded from the defaults and
discount from 0, all unoverridden. ADD_SERVICE installs exactly this budget
under the fresh service id in the active model. -/
theorem budgetter_C7_amended :
    (∀ (eff ovh base growth : ℚ) (i : Nat), i < 12 →
      sbGet (createServiceBudget eff ovh (some ⟨base, growth⟩)) i =
        some ⟨some ⟨max (base + growth * (i : ℚ)) 0, decide (0 < i)⟩,
              some ⟨eff, false⟩, some ⟨ovh, false⟩, some ⟨0, false⟩⟩) ∧
    (∀ (o : Oracle) (s : AppState) (payload : ServicePayload)
        (seed : Option InitialBudgetSeed) (s' : AppState),
      appReducer o s (.addService payload seed) = some s' →
      ∀ m ∈ s.models, s.activeModelId = some m.id →
      ∃ m' ∈ s'.models, bdGet m'.data.budgetData o.freshId =
        some (createServiceBudget payload.defaultEfficiency
          payload.defaultOverhead seed)) := by
  constructor
  · intro eff ovh base growth i hi
    have hrw : createServiceBudget eff ovh (some ⟨base, growth⟩) =
        (List.range' 0 12).map (fun j =>
          (j, ⟨some ⟨max (base + growth * (j : ℚ)) 0, decide (0 < j)⟩,
               some ⟨eff, false⟩, some ⟨ovh, false⟩, some ⟨0, false⟩⟩)) := by
      rfl
    have h := sbGet_range_map
      (fun j => ⟨some ⟨max (base + growth * (j : ℚ)) 0, decide (0 < j)⟩,
        some ⟨eff, false⟩, some ⟨ovh, false⟩, some ⟨0, false⟩⟩) 12 0 i
    have hcond : 0 ≤ i ∧ i < 0 + 12 := by omega
    rw [hrw]
    simpa [hcond] using h
  · intro o s payload seed s' hred m hm hact
    simp only [appReducer, updateActiveModelData_total, Option.some.injEq] at hred
    subst hred
    exact ⟨_, List.mem_map_of_mem _ hm, by simp [hact, bdGet_bdSet]⟩

/-- Witness for C7 (amended) at concrete inputs. -/
theorem budgetter_C7_witness :
    sbGet (createServiceBudget 80 10 (some ⟨1, -1⟩)) 2 =
      some ⟨some ⟨max (1 + (-1) * ((2 : Nat) : ℚ)) 0, decide (0 < 2)⟩,
            some ⟨80, false⟩, some ⟨10, false⟩, some ⟨0, false⟩⟩ :=
  budgetter_C7_amended.1 80 10 1 (-1) 2 (by norm_num)

/-! ## C3 — SET_BUDGET_FIELD propagation semantics -/

theorem wf12_spec {sb : ServiceBudget} (h : wf12 sb = true) :
    ∀ i, i < 12 → ∃ e, sbGet sb i = some e ∧ e.complete = true := by
  intro i hi
  have h2 := List.all_eq_true.mp h i (List.mem_range.mpr hi)
  cases hsb : sbGet sb i with
  | none => rw [hsb] at h2; exact absurd h2 (by simp)
  | some e => exact ⟨e, rfl, by rwa [hsb] at h2⟩

theorem complete_get {e : BudgetMonthEntry} (h : e.complete = true)
    (f : BudgetFieldKey) : ∃ pf, e.get f = some pf := by
  simp only [BudgetMonthEntry.complete, Bool.and_eq_true,
    Option.isSome_iff_exists] at h
  obtain ⟨⟨⟨h1, h2⟩, h3⟩, h4⟩ := h
  cases f
  · exact h1.imp (fun _ h => h)
  · exact h2.imp (fun _ h => h)
  · exact h3.imp (fun _ h => h)
  · exact h4.imp (fun _ h => h)

/-- Master specification of the baseline-propagation loop: months outside
the list are untouched; a listed month keeps its entry when its field is
overridden, and otherwise receives the new baseline value unoverridden,
judged against the flags the budget had before the loop. -/
theorem propagateBaseline_spec (f : BudgetFieldKey) (v : ℚ) :
    ∀ (l : List Nat) (sb : ServiceBudget), l.Nodup →
    (∀ i ∈ l, ∃ e pf, sbGet sb i = some e ∧ e.get f = some pf) →
    ∃ sb', propagateBaseline f v l sb = some sb' ∧
      (∀ j, j ∉ l → sbGet sb' j = sbGet sb j) ∧
      (∀ i ∈ l, ∀ e pf, sbGet sb i = some e → e.get f = some pf →
        sbGet sb' i = if pf.isOverridden then some e
          else some (updateMonthField (some e) f v false)) := by
  intro l
  induction l with
  | nil =>
    intro sb _ _
    exact ⟨sb, rfl, fun j _ => rfl, by simp⟩
  | cons i rest ih =>
    intro sb hnd hex
    obtain ⟨e, pf, he, hpf⟩ := hex i (by simp)
    have hnotin : i ∉ rest := (List.nodup_cons.mp hnd).1
    have hnd' : rest.Nodup := (List.nodup_cons.mp hnd).2
    set sb1 := if pf.isOverridden then sb
      else sbSet sb i (updateMonthField (some e) f v false) with hsb1
    have hget1 : ∀ k, k ≠ i → sbGet sb1 k = sbGet sb k := by
      intro k hk
      rw [hsb1]
      split
      · rfl
      · rw [sbGet_sbSet]; simp [hk]
    have hex' : ∀ k ∈ rest, ∃ e' pf', sbGet sb1 k = some e' ∧
        e'.get f = some pf' := by
      intro k hk
      have hki : k ≠ i := fun h => hnotin (h ▸ hk)
      rw [hget1 k hki]
      exact hex k (by simp [hk])
    obtain ⟨sb', hrun, hout, hin⟩ := ih sb1 hnd' hex'
    refine ⟨sb', ?_, ?_, ?_⟩
    · simp only [propagateBaseline, he, hpf, Option.bind_eq_bind,
        Option.some_bind]
      rw [← hsb1, hrun]
    · intro j hj
      have hj1 : j ≠ i := fun h => hj (by simp [h])
      have hj2 : j ∉ rest := fun h => hj (by simp [h])
      rw [hout j hj2, hget1 j hj1]
    · intro k hk e' pf' he' hpf'
      rcases List.mem_cons.mp hk with hk1 | hk2
      · subst hk1
        rw [he] at he'
        injection he' with hee
        subst hee
        rw [hpf] at hpf'
        injection hpf' with hpp
        subst hpp
        rw [hout k hnotin, hsb1]
        split
        · exact he
        · rw [sbGet_sbSet]; simp
      · have hki : k ≠ i := fun h => hnotin (h ▸ hk2)
        exact hin k hk2 e' pf' (by rw [hget1 k hki]; exact he') hpf'

/-- C3: SET_BUDGET_FIELD on an existing, well-formed service budget. At
month 0 it writes `{value, isOverridden: false}` to month 0 and to exactly
those months 1–11 whose field is not currently overridden, while an
overridden month keeps its whole entry (stored value and flag); at a month
index 1–11 it writes only that month's field as `{value, isOverridden: true}`
and leaves every other month (and every other service) unchanged. -/
theorem budgetter_C3_set_budget_field
    (data : ModelData) (sid : String) (sb : ServiceBudget)
    (f : BudgetFieldKey) (v : ℚ)
    (hbd : bdGet data.budgetData sid = some sb) (hwf : wf12 sb = true) :
    (∃ data', setBudgetFieldData sid 0 f v data = some data' ∧
      ∃ sb', bdGet data'.budgetData sid = some sb' ∧
        (∀ e, sbGet sb 0 = some e →
          sbGet sb' 0 = some (e.set f (some ⟨v, false⟩))) ∧
        (∀ i, 1 ≤ i → i < 12 → ∀ e pf, sbGet sb i = some e →
          e.get f = some pf →
          (pf.isOverridden = true → sbGet sb' i = some e) ∧
          (pf.isOverridden = false →
            sbGet sb' i = some (e.set f (some ⟨v, false⟩)))) ∧
        (∀ sid2, sid2 ≠ sid →
          bdGet data'.budgetData sid2 = bdGet data.budgetData sid2)) ∧
    (∀ mi, 1 ≤ mi → mi < 12 →
      ∃ data', setBudgetFieldData sid mi f v data = some data' ∧
      ∃ sb', bdGet data'.budgetData sid = some sb' ∧
        (∀ e, sbGet sb mi = some e →
          sbGet sb' mi = some (e.set f (some ⟨v, true⟩))) ∧
        (∀ j, j ≠ mi → sbGet sb' j = sbGet sb j) ∧
        (∀ sid2, sid2 ≠ sid →
          bdGet data'.budgetData sid2 = bdGet data.budgetData sid2)) := by
  obtain ⟨e0, he0, hc0⟩ := wf12_spec hwf 0 (by omega)
  constructor
  · -- month 0
    set sb0 := sbSet sb 0 (updateMonthField (sbGet sb 0) f v false) with hsb0
    have hget0 : ∀ k, k ≠ 0 → sbGet sb0 k = sbGet sb k := by
      intro k hk
      rw [hsb0, sbGet_sbSet]
      simp [hk]
    have hex : ∀ i ∈ List.range' 1 11, ∃ e pf, sbGet sb0 i = some e ∧
        e.get f = some pf := by
      intro i hi
      have hi' : 1 ≤ i ∧ i < 12 := by
        have := List.mem_range'_1.mp hi
        omega
      obtain ⟨e, he, hc⟩ := wf12_spec hwf i hi'.2
      obtain ⟨pf, hpf⟩ := complete_get hc f
      exact ⟨e, pf, by rw [hget0 i (by omega)]; exact he, hpf⟩
    obtain ⟨sb', hrun, hout, hin⟩ :=
      propagateBaseline_spec f v (List.range' 1 11) sb0
        (by decide) hex
    refine ⟨{ data with budgetData := bdSet data.budgetData sid sb' },
      ?_, sb', by rw [bdGet_bdSet]; simp, ?_, ?_, ?_⟩
    · simp [setBudgetFieldData, hbd, ← hsb0, hrun]
    · intro e he
      have h0 : (0 : Nat) ∉ List.range' 1 11 := by
        intro h
        have := List.mem_range'_1.mp h
        omega
      rw [hout 0 h0, hsb0, sbGet_sbSet, if_pos rfl, he,
        updateMonthField]
      rfl
    · intro i h1 h2 e pf he hpf
      have hmem : i ∈ List.range' 1 11 := List.mem_range'_1.mpr ⟨h1, by omega⟩
      have he' : sbGet sb0 i = some e := by rw [hget0 i (by omega)]; exact he
      have := hin i hmem e pf he' hpf
      constructor
      · intro hov; rw [this, if_pos hov]
      · intro hov
        rw [this, if_neg (by simp [hov]), updateMonthField]
        rfl
    · intro sid2 hs
      rw [bdGet_bdSet]
      simp [hs]
  · -- month > 0
    intro mi h1 h2
    have hmi : ¬ mi = 0 := by omega
    refine ⟨{ data with budgetData := (bdSet data.budgetData sid
        (sbSet sb mi (updateMonthField (sbGet sb mi) f v true))) },
      ?_, sbSet sb mi (updateMonthField (sbGet sb mi) f v true),
      by rw [bdGet_bdSet]; simp, ?_, ?_, ?_⟩
    · simp only [setBudgetFieldData, hbd, Option.getD_some, if_neg hmi]
      rfl
    · intro e he
      rw [sbGet_sbSet, if_pos rfl, he, updateMonthField]
      rfl
    · intro j hj
      rw [sbGet_sbSet]
      simp [hj]
    · intro sid2 hs
      rw [bdGet_bdSet]
      simp [hs]

/-- A well-formed unseeded sample budget. -/
def sampleBudget : ServiceBudget := createServiceBudget 80 10 none

/-- A dataset holding `sampleBudget` under service id `"s1"`. -/
def sampleData : ModelData := ⟨[], ⟨0, 2026⟩, [("s1", sampleBudget)]⟩

/-- Witness for C3 at concrete inputs. -/
theorem budgetter_C3_witness :
    ∃ data', setBudgetFieldData "s1" 0 .consumption 7 sampleData = some data' := by
  have h := (budgetter_C3_set_budget_field sampleData "s1" sampleBudget
    .consumption 7 (by decide) (by decide)).1
  obtain ⟨data', hd, -⟩ := h
  exact ⟨data', hd⟩

/-! ## C9 — BULK_ADJUST in the edit session -/

/-- Loop specification for BULK_ADJUST: months outside the processed list are
untouched, and each processed month's field becomes
`max min (round (value * multiplier^k))` with the override flag `m > 0`,
judged against the values the budget had before the loop. -/
theorem bulkLoop_spec (f : BudgetFieldKey) (fromMonth : Nat) (mult minv : ℚ)
    (comp : Bool) :
    ∀ (l : List Nat) (sb : ServiceBudget), l.Nodup →
    (∀ m ∈ l, ∃ e pf, sbGet sb m = some e ∧ e.get f = some pf) →
    ∃ sb', bulkLoop f fromMonth mult minv comp l sb = some sb' ∧
      (∀ j, j ∉ l → sbGet sb' j = sbGet sb j) ∧
      (∀ m ∈ l, ∀ e pf, sbGet sb m = some e → e.get f = some pf →
        sbGet sb' m = some (e.set f (some ⟨max minv (jsRound (pf.value *
          (if comp then mult ^ (m - fromMonth + 1) else mult))),
          decide (0 < m)⟩))) := by
  intro l
  induction l with
  | nil =>
    intro sb _ _
    exact ⟨sb, rfl, fun j _ => rfl, by simp⟩
  | cons m rest ih =>
    intro sb hnd hex
    obtain ⟨e, pf, he, hpf⟩ := hex m (by simp)
    have hnotin : m ∉ rest := (List.nodup_cons.mp hnd).1
    have hnd' : rest.Nodup := (List.nodup_cons.mp hnd).2
    set e' := e.set f (some ⟨max minv (jsRound (pf.value *
      (if comp then mult ^ (m - fromMonth + 1) else mult))),
      decide (0 < m)⟩) with he'
    set sb1 := sbSet sb m e' with hsb1
    have hget1 : ∀ k, k ≠ m → sbGet sb1 k = sbGet sb k := by
      intro k hk
      rw [hsb1, sbGet_sbSet]
      simp [hk]
    have hex' : ∀ k ∈ rest, ∃ e2 pf2, sbGet sb1 k = some e2 ∧
        e2.get f = some pf2 := by
      intro k hk
      have hkm : k ≠ m := fun h => hnotin (h ▸ hk)
      rw [hget1 k hkm]
      exact hex k (by simp [hk])
    obtain ⟨sb', hrun, hout, hin⟩ := ih sb1 hnd' hex'
    refine ⟨sb', ?_, ?_, ?_⟩
    · simp only [bulkLoop, he, hpf, Option.bind_eq_bind, Option.some_bind]
      rw [← he', ← hsb1, hrun]
    · intro j hj
      have hj1 : j ≠ m := fun h => hj (by simp [h])
      have hj2 : j ∉ rest := fun h => hj (by simp [h])
      rw [hout j hj2, hget1 j hj1]
    · intro k hk e2 pf2 he2 hpf2
      rcases List.mem_cons.mp hk with hk1 | hk2
      · subst hk1
        rw [he] at he2
        injection he2 with hee
        subst hee
        rw [hpf] at hpf2
        injection hpf2 with hpp
        subst hpp
        rw [hout k hnotin, hsb1, sbGet_sbSet, if_pos rfl, he']
      · have hkm : k ≠ m := fun h => hnotin (h ▸ hk2)
        exact hin k hk2 e2 pf2 (by rw [hget1 k hkm]; exact he2) hpf2

/-- Full characterization of dispatching BULK_ADJUST on a well-formed
canonical session budget. -/
theorem editReducer_bulkAdjust_spec (st : EditState) (f : BudgetFieldKey)
    (fromMonth : Nat) (mult minv : ℚ) (comp : Bool)
    (hc : canon12 st.current) (hwf : wf12 st.current = true) :
    ∃ next, editReducer st (.bulkAdjust f fromMonth mult minv comp) =
      some ⟨next, st.undoStack ++ [st.current], [], none⟩ ∧
      (∀ m, fromMonth ≤ m → m < 12 → ∀ e pf, sbGet st.current m = some e →
        e.get f = some pf →
        sbGet next m = some (e.set f (some ⟨max minv (jsRound (pf.value *
          (if comp then mult ^ (m - fromMonth + 1) else mult))),
          decide (0 < m)⟩))) ∧
      (∀ m, m < fromMonth → sbGet next m = sbGet st.current m) ∧
      (∀ m, 12 ≤ m → sbGet next m = sbGet st.current m) := by
  have hex : ∀ m ∈ List.range' fromMonth (12 - fromMonth),
      ∃ e pf, sbGet st.current m = some e ∧ e.get f = some pf := by
    intro m hm
    have hm' := List.mem_range'_1.mp hm
    have hm12 : m < 12 := by omega
    obtain ⟨e, he, hcpl⟩ := wf12_spec hwf m hm12
    obtain ⟨pf, hpf⟩ := complete_get hcpl f
    exact ⟨e, pf, he, hpf⟩
  obtain ⟨sb', hrun, hout, hin⟩ := bulkLoop_spec f fromMonth mult minv comp
    (List.range' fromMonth (12 - fromMonth)) st.current
    (List.nodup_range' fromMonth (12 - fromMonth) 1 (by simp)) hex
  have hc' : deepCloneBudget st.current = some st.current := hc
  refine ⟨sb', ?_, ?_, ?_, ?_⟩
  · simp only [editReducer, hc', Option.bind_eq_bind, Option.some_bind, hrun]
  · intro m h1 h2 e pf he hpf
    have hm : m ∈ List.range' fromMonth (12 - fromMonth) :=
      List.mem_range'_1.mpr ⟨h1, by omega⟩
    exact hin m hm e pf he hpf
  · intro m hm
    refine hout m (fun hmem => ?_)
    have := List.mem_range'_1.mp hmem
    omega
  · intro m hm
    refine hout m (fun hmem => ?_)
    have := List.mem_range'_1.mp hmem
    omega

/-- C9 (counterexample): on an unseeded budget (month 1 consumption 0),
BULK_ADJUST(consumption, fromMonth 1, multiplier 1, floor 1/2, flat) stores
`max(1/2, round(0*1)) = 1/2`, while the claimed formula
`round(max(1/2, 0*1)) = 1` differs: the code rounds before applying the
floor, not after. -/
theorem budgetter_C9_counterexample :
    ∃ st', editReducer ⟨sampleBudget, [], [], none⟩
        (.bulkAdjust .consumption 1 1 (1 / 2) false) = some st' ∧
      fieldValue st'.current 1 .consumption = 1 / 2 ∧
      fieldValue sampleBudget 1 .consumption = 0 ∧
      jsRound (max (1 / 2) (0 * 1)) = 1 ∧
      (1 / 2 : ℚ) ≠ jsRound (max (1 / 2) (0 * 1)) := by
  obtain ⟨next, hrun, htouch, -, -⟩ := editReducer_bulkAdjust_spec
    ⟨sampleBudget, [], [], none⟩ .consumption 1 1 (1 / 2) false
    (by decide) (by decide)
  have he : sbGet sampleBudget 1 =
      some ⟨some ⟨0, false⟩, some ⟨80, false⟩, some ⟨10, false⟩,
        some ⟨0, false⟩⟩ := by decide
  have hpf : BudgetMonthEntry.get
      ⟨some ⟨0, false⟩, some ⟨80, false⟩, some ⟨10, false⟩, some ⟨0, false⟩⟩
      .consumption = some ⟨0, false⟩ := by decide
  have hval := htouch 1 (le_refl 1) (by omega) _ _ he hpf
  have hr0 : jsRound ((0 : ℚ)) = 0 := by norm_num [jsRound]
  have hmax2 : max ((1 : ℚ) / 2) (0 * 1) = 1 / 2 := by
    rw [max_eq_left]
    norm_num
  refine ⟨_, hrun, ?_, by decide, ?_, ?_⟩
  · have hv : fieldValue next 1 .consumption =
        max ((1 : ℚ) / 2) (jsRound (0 * 1)) := by
      simp [fieldValue, hval, BudgetMonthEntry.set, BudgetMonthEntry.get]
    rw [hv]
    simp only [zero_mul, hr0]
    rw [max_eq_left]
    norm_num
  · rw [hmax2]
    norm_num [jsRound]
  · rw [hmax2]
    norm_num [jsRound]

/-- C9 (amended): BULK_ADJUST sets, for every month m from fromMonth to 11,
that month's field value to `max(floor, round(value * multiplier^k))` (the
code applies the floor after rounding) where value is the month's prior
value and k is 1 when compound is false and (m - fromMonth + 1) when
compound is true; every touched month with index > 0 becomes overridden
(month 0, if touched, stays unoverridden), months before fromMonth are
unchanged, and the whole operation pushes exactly one snapshot (the prior
current budget) onto the undo stack while clearing the redo stack. -/
theorem budgetter_C9_bulk_adjust (st : EditState) (f : BudgetFieldKey)
    (fromMonth : Nat) (mult minv : ℚ) (comp : Bool)
    (hc : canon12 st.current) (hwf : wf12 st.current = true) :
    ∃ next, editReducer st (.bulkAdjust f fromMonth mult minv comp) =
      some ⟨next, st.undoStack ++ [st.current], [], none⟩ ∧
      (∀ m, fromMonth ≤ m → m < 12 → ∀ e pf, sbGet st.current m = some e →
        e.get f = some pf →
        sbGet next m = some (e.set f (some ⟨max minv (jsRound (pf.value *
          (if comp then mult ^ (m - fromMonth + 1) else mult))),
          decide (0 < m)⟩))) ∧
      (∀ m, m < fromMonth → sbGet next m = sbGet st.current m) ∧
      (∀ m, 12 ≤ m → sbGet next m = sbGet st.current m) :=
  editReducer_bulkAdjust_spec st f fromMonth mult minv comp hc hwf

/-- Witness for C9 (amended) at concrete inputs. -/
theorem budgetter_C9_witness :
    ∃ next, editReducer ⟨sampleBudget, [], [], none⟩
        (.bulkAdjust .consumption 3 2 0 false) =
      some ⟨next, [] ++ [sampleBudget], [], none⟩ := by
  obtain ⟨next, hrun, -, -, -⟩ := budgetter_C9_bulk_adjust
    ⟨sampleBudget, [], [], none⟩ .consumption 3 2 0 false (by decide) (by decide)
  exact ⟨next, hrun⟩

/-! ## C10 — UNDO/REDO round trips -/

/-- C10: on a session whose budgets are canonical: UNDO then REDO (when the
undo stack is non-empty) restores the current budget and both stacks
structurally, with `preChange` cleared; REDO then UNDO symmetrically; and
UNDO/REDO on an empty respective stack return the state unchanged. -/
theorem budgetter_C10_undo_redo (st : EditState)
    (hc : canon12 st.current)
    (hu : ∀ b ∈ st.undoStack, canon12 b)
    (hr : ∀ b ∈ st.redoStack, canon12 b) :
    (st.undoStack ≠ [] → ∃ st₁ st₂,
      editReducer st .undo = some st₁ ∧ editReducer st₁ .redo = some st₂ ∧
      st₂ = ⟨st.current, st.undoStack, st.redoStack, none⟩) ∧
    (st.redoStack ≠ [] → ∃ st₁ st₂,
      editReducer st .redo = some st₁ ∧ editReducer st₁ .undo = some st₂ ∧
      st₂ = ⟨st.current, st.undoStack, st.redoStack, none⟩) ∧
    (st.undoStack = [] → editReducer st .undo = some st) ∧
    (st.redoStack = [] → editReducer st .redo = some st) := by
  have hc' : deepCloneBudget st.current = some st.current := hc
  refine ⟨?_, ?_, ?_, ?_⟩
  · intro hne
    have hlast := List.getLast?_eq_getLast st.undoStack hne
    set prev := st.undoStack.getLast hne with hprev
    have hpc : deepCloneBudget prev = some prev := hu prev (List.getLast_mem hne)
    refine ⟨⟨prev, st.undoStack.dropLast, st.redoStack ++ [st.current], none⟩,
      ⟨st.current, st.undoStack.dropLast ++ [prev], st.redoStack, none⟩,
      ?_, ?_, ?_⟩
    · simp only [editReducer, hlast, hc', Option.bind_eq_bind, Option.some_bind]
    · simp only [editReducer, List.getLast?_concat, hpc,
        Option.bind_eq_bind, Option.some_bind, List.dropLast_concat]
    · have : st.undoStack.dropLast ++ [prev] = st.undoStack := by
        rw [hprev]
        exact List.dropLast_append_getLast hne
      rw [this]
  · intro hne
    have hlast := List.getLast?_eq_getLast st.redoStack hne
    set nxt := st.redoStack.getLast hne with hnxt
    have hpc : deepCloneBudget nxt = some nxt := hr nxt (List.getLast_mem hne)
    refine ⟨⟨nxt, st.undoStack ++ [st.current], st.redoStack.dropLast, none⟩,
      ⟨st.current, st.undoStack, st.redoStack.dropLast ++ [nxt], none⟩,
      ?_, ?_, ?_⟩
    · simp only [editReducer, hlast, hc', Option.bind_eq_bind, Option.some_bind]
    · simp only [editReducer, List.getLast?_concat, hpc,
        Option.bind_eq_bind, Option.some_bind, List.dropLast_concat]
    · have : st.redoStack.dropLast ++ [nxt] = st.redoStack := by
        rw [hnxt]
        exact List.dropLast_append_getLast hne
      rw [this]
  · intro hempty
    simp [editReducer, hempty]
  · intro hempty
    simp [editReducer, hempty]

/-- Witness for C10 at concrete inputs. -/
theorem budgetter_C10_witness :
    ∃ st₁ st₂,
      editReducer ⟨sampleBudget, [sampleBudget], [], none⟩ .undo = some st₁ ∧
      editReducer st₁ .redo = some st₂ ∧
      st₂ = ⟨sampleBudget, [sampleBudget], [], none⟩ :=
  (budgetter_C10_undo_redo ⟨sampleBudget, [sampleBudget], [], none⟩
    (by decide) (by decide) (by decide)).1 (by decide)

/-! ## Version-list machinery for C2 and C6 -/

instance : IsTotal Version (fun a b => a.timestamp ≤ b.timestamp) :=
  ⟨fun a b => Int.le_total a.timestamp b.timestamp⟩

instance : IsTrans Version (fun a b => a.timestamp ≤ b.timestamp) :=
  ⟨fun _ _ _ h1 h2 => le_trans h1 h2⟩

theorem sortByTimestamp_perm (l : List Version) :
    List.Perm (sortByTimestamp l) l :=
  List.perm_insertionSort _ l

theorem map_id_of_preserved (g : BudgetModel → BudgetModel)
    (hg : ∀ m, (g m).id = m.id) (l : List BudgetModel) :
    (l.map g).map (·.id) = l.map (·.id) := by
  induction l with
  | nil => rfl
  | cons m t ih => simp [hg, ih]

theorem sortByTimestamp_sorted (l : List Version) :
    (sortByTimestamp l).Pairwise (fun a b => a.timestamp ≤ b.timestamp) :=
  List.sorted_insertionSort _ l

/-- The identity of a version apart from its (reassigned) number. -/
def vCore (v : Version) : String × Int × Bool × ModelData :=
  (v.name, v.timestamp, v.shared, v.data)

theorem renumberFrom_length (n : Int) :
    ∀ l : List Version, (renumberFrom n l).length = l.length := by
  intro l
  induction l generalizing n with
  | nil => rfl
  | cons v vs ih => simp [renumberFrom, ih]

theorem renumberFrom_map_vCore :
    ∀ (n : Int) (l : List Version),
      (renumberFrom n l).map vCore = l.map vCore := by
  intro n l
  induction l generalizing n with
  | nil => rfl
  | cons v vs ih => simp [renumberFrom, vCore, ih]

theorem renumberFrom_countP (p : Version → Bool)
    (hp : ∀ v n, p { v with number := n } = p v) :
    ∀ (n : Int) (l : List Version),
      (renumberFrom n l).countP p = l.countP p := by
  intro n l
  induction l generalizing n with
  | nil => rfl
  | cons v vs ih => simp [renumberFrom, List.countP_cons, ih, hp]

theorem renumberFrom_get (n : Int) :
    ∀ (l : List Version) (i : Nat) (h : i < (renumberFrom n l).length),
      ((renumberFrom n l).get ⟨i, h⟩).number = n + i := by
  intro l
  induction l generalizing n with
  | nil => intro i h; simp [renumberFrom] at h
  | cons v vs ih =>
    intro i h
    match i with
    | 0 => simp [renumberFrom]
    | j + 1 =>
      have h' : j < (renumberFrom (n + 1) vs).length := by
        simpa [renumberFrom] using h
      have := ih (n + 1) j h'
      simp only [renumberFrom, List.get_cons_succ]
      rw [this]
      push_cast
      ring

theorem mem_renumberFrom {w : Version} :
    ∀ {n : Int} {l : List Version}, w ∈ renumberFrom n l →
      n ≤ w.number ∧ ∃ u ∈ l, w = { u with number := w.number } := by
  intro n l
  induction l generalizing n with
  | nil => intro h; simp [renumberFrom] at h
  | cons v vs ih =>
    intro hw
    rcases List.mem_cons.mp (by simpa [renumberFrom] using hw) with h1 | h1
    · subst h1
      exact ⟨le_refl n, v, by simp, rfl⟩
    · obtain ⟨hle, u, hu, hwu⟩ := ih h1
      exact ⟨by omega, u, List.mem_cons_of_mem _ hu, hwu⟩

theorem renumberFrom_pairwise (l : List Version)
    (h : l.Pairwise (fun a b => a.timestamp ≤ b.timestamp)) :
    ∀ n : Int, (renumberFrom n l).Pairwise
      (fun a b => a.number < b.number ∧ a.timestamp ≤ b.timestamp) := by
  induction l with
  | nil => intro n; simp [renumberFrom]
  | cons v vs ih =>
    intro n
    obtain ⟨hhead, htail⟩ := List.pairwise_cons.mp h
    have := ih htail (n + 1)
    refine List.pairwise_cons.mpr ⟨?_, this⟩
    intro w hw
    obtain ⟨hle, u, hu, hwu⟩ := mem_renumberFrom hw
    constructor
    · simp only []
      omega
    · have : w.timestamp = u.timestamp := by rw [hwu]
      rw [this]
      exact hhead u hu

theorem le_foldl_max (l : List Int) (a : Int) :
    a ≤ l.foldl max a ∧ ∀ x ∈ l, x ≤ l.foldl max a := by
  induction l generalizing a with
  | nil => simp
  | cons b t ih =>
    refine ⟨le_trans (le_max_left a b) (ih (max a b)).1, ?_⟩
    intro x hx
    rcases List.mem_cons.mp hx with h1 | h1
    · subst h1
      exact le_trans (le_max_right a x) (ih (max a x)).1
    · exact (ih (max a b)).2 x h1

/-! ## C2 — version-number ordering invariant -/

/-- Numbers strictly ascending in list order matching non-decreasing
timestamps. -/
def versionsOrdered (vs : List Version) : Prop :=
  vs.Pairwise (fun a b => a.number < b.number ∧ a.timestamp ≤ b.timestamp)

/-- The C2 invariant: model ids are unique (data-model invariant) and every
model's version list is ordered. -/
def invC2 (s : AppState) : Prop :=
  (s.models.map (·.id)).Nodup ∧ ∀ m ∈ s.models, versionsOrdered m.versions

/-- One dispatch of SAVE_VERSION (with a clock not behind any stored
timestamp), DELETE_VERSION or IMPORT_MODEL_MERGE. -/
def versionStep (s s' : AppState) : Prop :=
  ∃ (o : Oracle) (a : AppAction),
    ((∃ name shared, a = .saveVersion name shared ∧
        ∀ m ∈ s.models, ∀ v ∈ m.versions, v.timestamp ≤ o.now) ∨
     (∃ n, a = .deleteVersion n) ∨
     (∃ imported, a = .importModelMerge imported)) ∧
    appReducer o s a = some s'

theorem invC2_map {s : AppState} {g : BudgetModel → BudgetModel}
    (hinv : invC2 s) (hg : ∀ m, (g m).id = m.id)
    (hver : ∀ m ∈ s.models, versionsOrdered (g m).versions) :
    invC2 { s with models := s.models.map g } := by
  obtain ⟨hnd, hord⟩ := hinv
  constructor
  · show ((s.models.map g).map (·.id)).Nodup
    rw [map_id_of_preserved g hg]
    exact hnd
  · intro m' hm'
    obtain ⟨m, hm, rfl⟩ := List.mem_map.mp hm'
    exact hver m hm

theorem versionStep_preserves {s s' : AppState} (h : versionStep s s')
    (hinv : invC2 s) : invC2 s' := by
  obtain ⟨o, a, hcase, hred⟩ := h
  rcases hcase with ⟨name, shared, rfl, hfresh⟩ | ⟨n, rfl⟩ | ⟨imported, rfl⟩
  · -- SAVE_VERSION
    simp only [appReducer] at hred
    cases hfind : s.models.find? (fun m => some m.id == s.activeModelId) with
    | none =>
      rw [hfind] at hred
      simp only [Option.some.injEq] at hred
      subst hred
      exact hinv
    | some activeModel =>
      rw [hfind] at hred
      simp only [Option.some.injEq] at hred
      subst hred
      have hamem : activeModel ∈ s.models := List.mem_of_find?_eq_some hfind
      have hp := List.find?_some hfind
      have hap : some activeModel.id = s.activeModelId := by
        simpa using hp
      refine invC2_map hinv (fun m => ?_) (fun m hm => ?_)
      · by_cases hact : (some m.id == s.activeModelId) = true <;>
          simp [hact]
      · by_cases hact : (some m.id == s.activeModelId) = true
        case neg =>
          simp only [if_neg hact]
          exact hinv.2 m hm
        · have hid : m.id = activeModel.id :=
            Option.some.inj ((eq_of_beq hact).trans hap.symm)
          have hmeq : m = activeModel :=
            List.inj_on_of_nodup_map hinv.1 hm hamem hid
          subst hmeq
          simp only [if_pos hact]
          rw [versionsOrdered, List.pairwise_append]
          refine ⟨hinv.2 m hm, List.pairwise_singleton _ _, ?_⟩
          intro v hv w hw
          rcases List.mem_singleton.mp hw with rfl
          refine ⟨?_, hfresh m hm v hv⟩
          show v.number <
            (match m.versions.map (·.number) with
              | [] => (1 : Int)
              | n :: ns => ns.foldl max n + 1)
          cases hvs : m.versions.map (·.number) with
          | nil =>
            exfalso
            have hvn : v.number ∈ m.versions.map (·.number) :=
              List.mem_map_of_mem _ hv
            rw [hvs] at hvn
            exact absurd hvn (List.not_mem_nil _)
          | cons n0 ns =>
            show v.number < List.foldl max n0 ns + 1
            have hvn : v.number ∈ m.versions.map (·.number) :=
              List.mem_map_of_mem _ hv
            rw [hvs] at hvn
            rcases List.mem_cons.mp hvn with h1 | h1
            · rw [h1]
              have := (le_foldl_max ns n0).1
              omega
            · have := (le_foldl_max ns n0).2 v.number h1
              omega
  · -- DELETE_VERSION
    simp only [appReducer, Option.some.injEq] at hred
    subst hred
    refine invC2_map hinv (fun m => ?_) (fun m hm => ?_)
    · by_cases hact : (some m.id == s.activeModelId) = true <;> simp [hact]
    · by_cases hact : (some m.id == s.activeModelId) = true
      · simp only [if_pos hact]
        exact List.Pairwise.filter _ (hinv.2 m hm)
      · simp only [if_neg hact]
        exact hinv.2 m hm
  · -- IMPORT_MODEL_MERGE
    simp only [appReducer] at hred
    cases hfind : s.models.find? (fun m => m.id == imported.id) with
    | none =>
      rw [hfind] at hred
      simp only [Option.some.injEq] at hred
      subst hred
      exact hinv
    | some existing =>
      rw [hfind] at hred
      simp only [Option.some.injEq] at hred
      subst hred
      refine invC2_map hinv (fun m => ?_) (fun m hm => ?_)
      · by_cases hact : m.id = imported.id <;> simp [hact]
      · by_cases hact : m.id = imported.id
        · simp only [if_pos hact]
          exact renumberFrom_pairwise _ (sortByTimestamp_sorted _) 1
        · simp only [if_neg hact]
          exact hinv.2 m hm

/-- C2 (amended): after any sequence of SAVE_VERSION (with a clock not
behind any stored timestamp), DELETE_VERSION. and IMPORT_MODEL_MERGE
dispatches, every model's version numbers remain strictly ascending in list
order, matching non-decreasing timestamp order. (Density 1..N is not
preserved: DELETE_VERSION removes an entry without renumbering, see the
counterexample; IMPORT_MODEL_MERGE renumbers densely from 1.) -/
theorem budgetter_C2_version_order (s s' : AppState)
    (hseq : Relation.ReflTransGen versionStep s s') (hinv : invC2 s) :
    invC2 s' := by
  induction hseq with
  | refl => exact hinv
  | tail _ hstep ih => exact versionStep_preserves hstep ih

/-- Witness for C2 (amended) at concrete inputs. -/
theorem budgetter_C2_witness : invC2 state1 :=
  budgetter_C2_version_order state1 state1 Relation.ReflTransGen.refl
    (by constructor
        · decide
        · intro m hm
          rcases List.mem_singleton.mp hm with rfl
          simp [versionsOrdered, model1])

/-- The dense-numbering check `for all i, versions[i].number == i+1`. -/
def numbersDense (vs : List Version) : Bool :=
  (List.range vs.length).all (fun i =>
    match vs[i]? with
    | some v => v.number == (i : Int) + 1
    | none => false)

/-- C2 (counterexample): SAVE, SAVE, DELETE(1) leaves the remaining version
numbered 2 at index 0 — `versions[0].number ≠ 1`, so the numbers are not a
dense 1..N sequence (DELETE_VERSION does not renumber). -/
theorem budgetter_C2_counterexample :
    ((appReducer ⟨"a", 1, 0, 2026⟩ state1 (.saveVersion "v1" none)).bind
      (fun s => (appReducer ⟨"b", 2, 0, 2026⟩ s (.saveVersion "v2" none)).bind
        (fun s2 => appReducer ⟨"c", 3, 0, 2026⟩ s2 (.deleteVersion 1)))).map
      (fun s3 => s3.models.map (fun m => numbersDense m.versions)) =
    some [false] := by decide

/-! ## C6 — IMPORT_MODEL_MERGE -/

theorem countP_ts_renumberFrom (t : Int) (n : Int) (l : List Version) :
    (renumberFrom n l).countP (fun v => v.timestamp == t) =
      l.countP (fun v => v.timestamp == t) :=
  renumberFrom_countP (fun v => v.timestamp == t) (fun _ _ => rfl) n l

theorem countP_ts_sortByTimestamp (t : Int) (l : List Version) :
    (sortByTimestamp l).countP (fun v => v.timestamp == t) =
      l.countP (fun v => v.timestamp == t) :=
  (sortByTimestamp_perm l).countP_eq _

/-- C6: merging an imported model into an existing model with the same id
keeps the working data, adds exactly the imported versions with novel
timestamps (dedup by timestamp), sorts by ascending timestamp and renumbers
densely from 1; with no matching id the state is returned unchanged. -/
theorem budgetter_C6_import_merge (o : Oracle) (s : AppState)
    (imported : BudgetModel)
    (hnodup : (s.models.map (·.id)).Nodup) :
    ((∀ m ∈ s.models, m.id ≠ imported.id) →
      appReducer o s (.importModelMerge imported) = some s) ∧
    (∀ m ∈ s.models, m.id = imported.id →
      ∃ s', appReducer o s (.importModelMerge imported) = some s' ∧
      ∃ m' ∈ s'.models, m'.id = m.id ∧ m'.data = m.data ∧
        (∀ m2 ∈ s.models, m2.id ≠ imported.id → m2 ∈ s'.models) ∧
        m'.versions.length = m.versions.length +
          (imported.versions.filter (fun v =>
            !((m.versions.map (·.timestamp)).contains v.timestamp))).length ∧
        List.Perm (m'.versions.map vCore)
          ((m.versions ++ imported.versions.filter (fun v =>
            !((m.versions.map (·.timestamp)).contains v.timestamp))).map vCore) ∧
        m'.versions.Pairwise (fun a b => a.timestamp ≤ b.timestamp) ∧
        (∀ i (h : i < m'.versions.length),
          (m'.versions.get ⟨i, h⟩).number = 1 + i) ∧
        (∀ t : Int, t ∈ m.versions.map (·.timestamp) →
          m'.versions.countP (fun v => v.timestamp == t) =
            m.versions.countP (fun v => v.timestamp == t)) ∧
        (∀ t : Int, t ∉ m.versions.map (·.timestamp) →
          m'.versions.countP (fun v => v.timestamp == t) =
            imported.versions.countP (fun v => v.timestamp == t))) := by
  constructor
  · intro hnone
    have hfind : s.models.find? (fun m => m.id == imported.id) = none := by
      rw [List.find?_eq_none]
      intro m hm
      simp [hnone m hm]
    simp only [appReducer, hfind]
  · intro m hm hid
    have hfind : s.models.find? (fun m2 => m2.id == imported.id) = some m := by
      cases hf : s.models.find? (fun m2 => m2.id == imported.id) with
      | none =>
        exfalso
        have := List.find?_eq_none.mp hf m hm
        simp [hid] at this
      | some existing =>
        have hmem : existing ∈ s.models := List.mem_of_find?_eq_some hf
        have hpe := List.find?_some hf
        have heid : existing.id = imported.id := by simpa using hpe
        have : existing = m :=
          List.inj_on_of_nodup_map hnodup hmem hm (heid.trans hid.symm)
        rw [this]
    set novel := imported.versions.filter (fun v =>
      !((m.versions.map (·.timestamp)).contains v.timestamp)) with hnovel
    set merged := renumberFrom 1 (sortByTimestamp (m.versions ++ novel))
      with hmerged
    refine ⟨{ s with models := s.models.map (fun m2 =>
        if m2.id = imported.id then
          { m2 with versions := merged, updatedAt := o.now } else m2) },
      ?_, ?_⟩
    · simp only [appReducer, hfind]
    refine ⟨{ m with versions := merged, updatedAt := o.now }, ?_, rfl, rfl,
      ?_, ?_, ?_, ?_, ?_, ?_, ?_⟩
    · show _ ∈ List.map _ s.models
      have : ({ m with versions := merged, updatedAt := o.now } : BudgetModel) =
          (if m.id = imported.id then
            { m with versions := merged, updatedAt := o.now } else m) := by
        rw [if_pos hid]
      rw [this]
      exact List.mem_map_of_mem _ hm
    · intro m2 hm2 hne
      show _ ∈ List.map _ s.models
      have : m2 = (if m2.id = imported.id then
          { m2 with versions := merged, updatedAt := o.now } else m2) := by
        rw [if_neg hne]
      rw [this]
      exact List.mem_map_of_mem _ hm2
    · show merged.length = _
      rw [hmerged, renumberFrom_length,
        (sortByTimestamp_perm _).length_eq, List.length_append]
    · show List.Perm (merged.map vCore) _
      rw [hmerged, renumberFrom_map_vCore]
      exact (sortByTimestamp_perm _).map vCore
    · show merged.Pairwise _
      rw [hmerged]
      exact (renumberFrom_pairwise _ (sortByTimestamp_sorted _) 1).imp
        (fun h => h.2)
    · intro i h
      exact renumberFrom_get 1 (sortByTimestamp (m.versions ++ novel)) i h
    · intro t ht
      show merged.countP _ = _
      rw [hmerged, countP_ts_renumberFrom, countP_ts_sortByTimestamp,
        List.countP_append]
      have : novel.countP (fun v => v.timestamp == t) = 0 := by
        rw [List.countP_eq_zero]
        intro v hv
        have hnc := (List.mem_filter.mp (hnovel ▸ hv)).2
        intro hvt
        have hvt' : v.timestamp = t := by simpa using hvt
        rw [hvt'] at hnc
        simp [ht] at hnc
      omega
    · intro t ht
      show merged.countP _ = _
      rw [hmerged, countP_ts_renumberFrom, countP_ts_sortByTimestamp,
        List.countP_append]
      have h1 : m.versions.countP (fun v => v.timestamp == t) = 0 := by
        rw [List.countP_eq_zero]
        intro v hv hvt
        exact ht (List.mem_map.mpr ⟨v, hv, by simpa using hvt⟩)
      have h2 : novel.countP (fun v => v.timestamp == t) =
          imported.versions.countP (fun v => v.timestamp == t) := by
        rw [hnovel, List.countP_filter]
        refine List.countP_congr (fun a _ => ?_)
        by_cases hat : (a.timestamp == t) = true
        · have hteq : a.timestamp = t := by simpa using hat
          have hcon : ((m.versions.map (·.timestamp)).contains a.timestamp)
              = false := by
            rw [hteq]
            simpa using ht
          rw [hat, hcon]
          simp
        · have hat' : (a.timestamp == t) = false := by
            revert hat
            cases (a.timestamp == t) <;> simp
          rw [hat']
          simp
      omega

/-- A sample saved version. -/
def versionA : Version := ⟨1, "v1", 10, false, emptyData⟩

/-- `model1` with one saved version. -/
def modelV : BudgetModel := ⟨"m1", "Model One", 0, 0, emptyData, [versionA]⟩

/-- A state holding `modelV`. -/
def stateV : AppState := ⟨3, [modelV], some "m1"⟩

/-- An imported model colliding with `modelV`'s id, with one novel-timestamp
version. -/
def importedM : BudgetModel :=
  ⟨"m1", "Imp", 0, 0, emptyData, [⟨5, "x", 20, true, emptyData⟩]⟩

/-- Witness for C6 at concrete inputs. -/
theorem budgetter_C6_witness :
    ∃ s', appReducer sampleOracle stateV (.importModelMerge importedM) =
      some s' := by
  obtain ⟨s', hs', -⟩ := (budgetter_C6_import_merge sampleOracle stateV
    importedM (by decide)).2 modelV (by decide) (by decide)
  exact ⟨s', hs'⟩

/-! ## C5 — compare engine -/

theorem bdGet_mem : ∀ {bd : BudgetData} {k : String} {v : ServiceBudget},
    bdGet bd k = some v → (k, v) ∈ bd := by
  intro bd
  induction bd with
  | nil => intro k v h; simp [bdGet] at h
  | cons p rest ih =>
    intro k v h
    obtain ⟨j, x⟩ := p
    by_cases hk : k = j
    · subst hk
      rw [bdGet, if_pos rfl] at h
      injection h with h2
      subst h2
      exact List.mem_cons_self _ _
    · rw [bdGet, if_neg hk] at h
      exact List.mem_cons_of_mem _ (ih h)

theorem sbGet_mem : ∀ {sb : ServiceBudget} {i : Nat} {e : BudgetMonthEntry},
    sbGet sb i = some e → (i, e) ∈ sb := by
  intro sb
  induction sb with
  | nil => intro i e h; simp [sbGet] at h
  | cons p rest ih =>
    intro i e h
    obtain ⟨j, x⟩ := p
    by_cases hi : i = j
    · subst hi
      rw [sbGet, if_pos rfl] at h
      injection h with h2
      subst h2
      exact List.mem_cons_self _ _
    · rw [sbGet, if_neg hi] at h
      exact List.mem_cons_of_mem _ (ih h)

theorem sbComplete_get {sb : ServiceBudget} (h : sbComplete sb = true)
    {i : Nat} {e : BudgetMonthEntry} (he : sbGet sb i = some e) :
    e.complete = true :=
  List.all_eq_true.mp h (i, e) (sbGet_mem he)

theorem wfData_budget {d : ModelData} {sid : String} {sb : ServiceBudget}
    (h : wfData d = true) (hb : bdGet d.budgetData sid = some sb) :
    sbComplete sb = true :=
  List.all_eq_true.mp h (sid, sb) (bdGet_mem hb)

theorem foldlM_some {α : Type} (g : ℚ → α → Option ℚ) (l : List α)
    (h : ∀ acc x, x ∈ l → ∃ y, g acc x = some y) :
    ∀ acc, ∃ q, l.foldlM g acc = some q := by
  induction l with
  | nil => intro acc; exact ⟨acc, rfl⟩
  | cons x t ih =>
    intro acc
    obtain ⟨y, hy⟩ := h acc x (by simp)
    obtain ⟨q, hq⟩ := ih (fun a z hz => h a z (by simp [hz])) y
    refine ⟨q, ?_⟩
    rw [List.foldlM_cons, hy]
    simpa using hq

theorem computeServiceTotal_isSome (d : ModelData) (sid : String)
    (hwf : wfData d = true) : ∃ q, computeServiceTotal d sid = some q := by
  rw [computeServiceTotal]
  cases hf : d.services.find? (fun s => s.id == sid) with
  | none => exact ⟨0, by cases bdGet d.budgetData sid <;> rfl⟩
  | some service =>
    cases hb : bdGet d.budgetData sid with
    | none => exact ⟨0, rfl⟩
    | some budget =>
      apply foldlM_some
      intro acc m _
      cases he : sbGet budget m with
      | none => exact ⟨acc, rfl⟩
      | some e =>
        have hcpl := sbComplete_get (wfData_budget hwf hb) he
        obtain ⟨c, hc⟩ := complete_get hcpl .consumption
        obtain ⟨eff, heff⟩ := complete_get hcpl .efficiency
        obtain ⟨ov, hov⟩ := complete_get hcpl .overhead
        obtain ⟨dc, hdc⟩ := complete_get hcpl .discount
        exact ⟨acc + calculateMonthCost c.value service.unitCost eff.value
          ov.value dc.value service.discountEligible,
          by simp [hc, heff, hov, hdc]⟩

theorem find?_service {l : List Service} {sid : String}
    (h : sid ∈ l.map (·.id)) :
    ∃ so, l.find? (fun s => s.id == sid) = some so ∧ so.id = sid := by
  obtain ⟨s0, hs0, hid⟩ := List.mem_map.mp h
  have hsome : (l.find? (fun s => s.id == sid)).isSome := by
    rw [List.find?_isSome]
    exact ⟨s0, hs0, by simp [hid]⟩
  obtain ⟨so, hso⟩ := Option.isSome_iff_exists.mp hsome
  exact ⟨so, hso, by simpa using List.find?_some hso⟩

theorem mem_diffsFor {ob nb : ServiceBudget} {f : BudgetFieldKey}
    {mth : Nat} {ov nv : ℚ} :
    (⟨f, mth, ov, nv⟩ : FieldDiff) ∈ diffsFor ob nb ↔
      (mth < 12 ∧ ov = fieldValue ob mth f ∧ nv = fieldValue nb mth f ∧
        ov ≠ nv) := by
  rw [diffsFor]
  constructor
  · intro h
    obtain ⟨m2, hm2, h2⟩ := List.mem_flatMap.mp h
    obtain ⟨fk, _, hsome⟩ := List.mem_filterMap.mp h2
    by_cases hcond : fieldValue ob m2 fk ≠ fieldValue nb m2 fk
    · rw [if_pos hcond] at hsome
      injection hsome with h3
      rw [FieldDiff.mk.injEq] at h3
      obtain ⟨h4, h5, h6, h7⟩ := h3
      subst h4
      subst h5
      rw [h6, h7] at hcond
      exact ⟨List.mem_range.mp hm2, h6.symm, h7.symm, hcond⟩
    · rw [if_neg hcond] at hsome
      exact absurd hsome (by simp)
  · intro ⟨hm, hov, hnv, hne⟩
    refine List.mem_flatMap.mpr ⟨mth, List.mem_range.mpr hm, ?_⟩
    refine List.mem_filterMap.mpr ⟨f, ?_, ?_⟩
    · cases f <;> simp [FIELDS]
    · rw [← hov, ← hnv, if_pos hne]

theorem compareOne_both {older newer : ModelData} {sid : String}
    (hwfo : wfData older = true) (hwfn : wfData newer = true)
    (ho : sid ∈ older.services.map (·.id))
    (hn : sid ∈ newer.services.map (·.id))
    {ob nb : ServiceBudget} (hob : bdGet older.budgetData sid = some ob)
    (hnb : bdGet newer.budgetData sid = some nb) :
    ∃ (sn : Service) (oc nc : ℚ),
      compareOne older newer sid = some
        (⟨sid, sn.name,
          if (diffsFor ob nb).length > 0 then .changed else .unchanged,
          diffsFor ob nb, oc, nc⟩, oc, nc) := by
  obtain ⟨so, hso, -⟩ := find?_service ho
  obtain ⟨sn, hsn, -⟩ := find?_service hn
  obtain ⟨oc, hoc⟩ := computeServiceTotal_isSome older sid hwfo
  obtain ⟨nc, hnc⟩ := computeServiceTotal_isSome newer sid hwfn
  refine ⟨sn, oc, nc, ?_⟩
  simp [compareOne, hso, hsn, hoc, hnc, hob, hnb]

theorem compareLoop_spec (older newer : ModelData) :
    ∀ ids : List String,
    (∀ id ∈ ids, ∃ t, compareOne older newer id = some t) →
    ∃ ds ot nt, compareLoop older newer ids = some (ds, ot, nt) ∧
      ∀ id ∈ ids, ∀ t, compareOne older newer id = some t → t.1 ∈ ds := by
  intro ids
  induction ids with
  | nil =>
    intro _
    exact ⟨[], 0, 0, rfl, by simp⟩
  | cons id rest ih =>
    intro h
    obtain ⟨⟨d, oc, nc⟩, ht⟩ := h id (by simp)
    obtain ⟨ds, ot, nt, hloop, hmem⟩ := ih (fun x hx => h x (by simp [hx]))
    refine ⟨d :: ds, oc + ot, nc + nt, ?_, ?_⟩
    · simp [compareLoop, ht, hloop]
    · intro id2 hid2 t2 ht2
      rcases List.mem_cons.mp hid2 with h1 | h1
      · subst h1
        rw [ht] at ht2
        injection ht2 with h3
        subst h3
        exact List.mem_cons_self _ _
      · exact List.mem_cons_of_mem _ (hmem id2 h1 t2 ht2)

theorem jsDedup_go_mem (x : String) : ∀ (l acc : List String),
    (x ∈ l.foldl (fun acc y => if acc.contains y then acc else acc ++ [y])
      acc ↔ x ∈ acc ∨ x ∈ l) := by
  intro l
  induction l with
  | nil => intro acc; simp
  | cons y t ih =>
    intro acc
    simp only [List.foldl_cons]
    by_cases hy : acc.contains y = true
    · rw [if_pos hy]
      rw [ih acc]
      have hymem : y ∈ acc := by simpa using hy
      constructor
      · rintro (h | h)
        · exact Or.inl h
        · exact Or.inr (List.mem_cons_of_mem _ h)
      · rintro (h | h)
        · exact Or.inl h
        · rcases List.mem_cons.mp h with h2 | h2
          · exact Or.inl (h2 ▸ hymem)
          · exact Or.inr h2
    · rw [if_neg hy]
      rw [ih (acc ++ [y])]
      simp only [List.mem_append, List.mem_singleton, List.mem_cons]
      tauto

theorem mem_jsDedup {x : String} {l : List String} :
    x ∈ jsDedup l ↔ x ∈ l := by
  rw [jsDedup, jsDedup_go_mem]
  simp

theorem diffsFor_self (b : ServiceBudget) : diffsFor b b = [] := by
  rw [diffsFor]
  rw [List.flatMap_eq_nil_iff]
  intro m _
  rw [List.filterMap_eq_nil_iff]
  intro f _
  rw [if_neg]
  simp

theorem compareOne_self (d : ModelData) (hwf : wfData d = true) (id : String) :
    ∃ sd c, compareOne d d id = some (sd, c, c) ∧ sd.fieldDiffs = [] := by
  obtain ⟨c, hc⟩ := computeServiceTotal_isSome d id hwf
  cases hf : d.services.find? (fun s => s.id == id) with
  | none =>
    cases hb : bdGet d.budgetData id with
    | none =>
      exact ⟨⟨id, id, .unchanged, [], c, c⟩, c,
        by simp [compareOne, hf, hc, hb], rfl⟩
    | some ob =>
      exact ⟨⟨id, id, .unchanged, [], c, c⟩, c,
        by simp [compareOne, hf, hc, hb, diffsFor_self], rfl⟩
  | some s0 =>
    cases hb : bdGet d.budgetData id with
    | none =>
      exact ⟨⟨id, s0.name, .unchanged, [], c, c⟩, c,
        by simp [compareOne, hf, hc, hb], rfl⟩
    | some ob =>
      exact ⟨⟨id, s0.name, .unchanged, [], c, c⟩, c,
        by simp [compareOne, hf, hc, hb, diffsFor_self], rfl⟩

theorem compareLoop_self (d : ModelData) (hwf : wfData d = true) :
    ∀ ids : List String, ∃ ds t, compareLoop d d ids = some (ds, t, t) ∧
      ∀ sd ∈ ds, sd.fieldDiffs = [] := by
  intro ids
  induction ids with
  | nil => exact ⟨[], 0, rfl, by simp⟩
  | cons id rest ih =>
    obtain ⟨sd, c, hone, hdiffs⟩ := compareOne_self d hwf id
    obtain ⟨ds, t, hloop, hall⟩ := ih
    refine ⟨sd :: ds, c + t, by simp [compareLoop, hone, hloop], ?_⟩
    intro sd2 hsd2
    rcases List.mem_cons.mp hsd2 with h1 | h1
    · exact h1 ▸ hdiffs
    · exact hall sd2 h1

/-- C5: for a service present in both (well-formed) datasets, the recorded
FieldDiffs are exactly the (month 0–11, field) pairs whose values (missing
month entries read as 0) differ, and the service is classified changed iff
at least one FieldDiff exists, else unchanged; comparing a dataset to itself
yields zero FieldDiffs for every service and equal grand totals. -/
theorem budgetter_C5_compare :
    (∀ (older newer : ModelData),
      wfData older = true → wfData newer = true →
      ∃ r, compareModelData older newer = some r ∧
        ∀ sid, sid ∈ older.services.map (·.id) →
          sid ∈ newer.services.map (·.id) →
          ∀ ob nb, bdGet older.budgetData sid = some ob →
            bdGet newer.budgetData sid = some nb →
          ∃ d ∈ r.services, d.serviceId = sid ∧
            (∀ f mth ov nv, (⟨f, mth, ov, nv⟩ : FieldDiff) ∈ d.fieldDiffs ↔
              (mth < 12 ∧ ov = fieldValue ob mth f ∧
                nv = fieldValue nb mth f ∧ ov ≠ nv)) ∧
            (d.status = .changed ↔ d.fieldDiffs ≠ []) ∧
            (d.fieldDiffs = [] → d.status = .unchanged)) ∧
    (∀ d : ModelData, wfData d = true →
      ∃ r, compareModelData d d = some r ∧
        r.oldGrandTotal = r.newGrandTotal ∧
        ∀ sd ∈ r.services, sd.fieldDiffs = []) := by
  constructor
  · intro older newer hwfo hwfn
    have hall : ∀ id ∈ jsDedup (older.services.map (·.id) ++
        newer.services.map (·.id)), ∃ t, compareOne older newer id = some t := by
      intro id _
      rw [compareOne]
      obtain ⟨oc, hoc⟩ := computeServiceTotal_isSome older id hwfo
      obtain ⟨nc, hnc⟩ := computeServiceTotal_isSome newer id hwfn
      rw [hoc, hnc]
      cases older.services.find? (fun s => s.id == id) <;>
        cases newer.services.find? (fun s => s.id == id) <;>
        exact ⟨_, rfl⟩
    obtain ⟨ds, ot, nt, hloop, hmem⟩ := compareLoop_spec older newer _ hall
    refine ⟨⟨ds, ot, nt⟩, by simp [compareModelData, hloop], ?_⟩
    intro sid ho hn ob nb hob hnb
    obtain ⟨sn, oc, nc, hone⟩ := compareOne_both hwfo hwfn ho hn hob hnb
    have hsidmem : sid ∈ jsDedup (older.services.map (·.id) ++
        newer.services.map (·.id)) :=
      mem_jsDedup.mpr (List.mem_append.mpr (Or.inl ho))
    have hd := hmem sid hsidmem _ hone
    refine ⟨_, hd, rfl, ?_, ?_, ?_⟩
    · intro f mth ov nv
      exact mem_diffsFor
    · show (if (diffsFor ob nb).length > 0 then DiffStatus.changed
        else DiffStatus.unchanged) = DiffStatus.changed ↔ diffsFor ob nb ≠ []
      cases hdf : diffsFor ob nb with
      | nil => simp
      | cons a t => simp
    · intro hnil
      show (if (diffsFor ob nb).length > 0 then DiffStatus.changed
        else DiffStatus.unchanged) = DiffStatus.unchanged
      have : diffsFor ob nb = [] := hnil
      rw [this]
      simp
  · intro d hwf
    obtain ⟨ds, t, hloop, hall⟩ := compareLoop_self d hwf
      (jsDedup (d.services.map (·.id) ++ d.services.map (·.id)))
    exact ⟨⟨ds, t, t⟩, by simp [compareModelData, hloop], rfl, hall⟩

/-- Witness for C5 at concrete inputs. -/
theorem budgetter_C5_witness :
    ∃ r, compareModelData sampleData sampleData = some r ∧
      r.oldGrandTotal = r.newGrandTotal ∧
      ∀ sd ∈ r.services, sd.fieldDiffs = [] :=
  budgetter_C5_compare.2 sampleData (by decide)

/-! ## C8 — the month-0 never-overridden invariant -/

/-- An entry none of whose present fields is overridden. -/
def entryOk (e : BudgetMonthEntry) : Prop :=
  ∀ g pf, e.get g = some pf → pf.isOverridden = false

theorem fields_mem (f : BudgetFieldKey) : f ∈ FIELDS := by
  cases f <;> simp [FIELDS]

theorem month0Ok_iff {sb : ServiceBudget} :
    month0Ok sb = true ↔ ∀ e, sbGet sb 0 = some e → entryOk e := by
  rw [month0Ok]
  cases h0 : sbGet sb 0 with
  | none =>
    constructor
    · intro _ e he
      exact absurd he (by simp)
    · intro _
      rfl
  | some e =>
    rw [List.all_eq_true]
    constructor
    · intro h e' he' g pf hpf
      injection he' with he2
      subst he2
      have := h g (fields_mem g)
      rw [hpf] at this
      simpa using this
    · intro h g _
      cases hpf : e.get g with
      | none => rfl
      | some pf =>
        have := h e rfl g pf hpf
        simp [this]

theorem entryOk_set_false {e : BudgetMonthEntry} (f : BudgetFieldKey) (v : ℚ)
    (he : entryOk e) : entryOk (e.set f (some ⟨v, false⟩)) := by
  intro g pf h
  rw [BudgetMonthEntry.get_set] at h
  split at h
  · injection h with h2
    rw [← h2]
  · exact he g pf h

theorem month0Ok_sbSet_zero {sb : ServiceBudget} {e : BudgetMonthEntry}
    (he : entryOk e) : month0Ok (sbSet sb 0 e) = true := by
  rw [month0Ok_iff]
  intro e' he'
  rw [sbGet_sbSet, if_pos rfl] at he'
  injection he' with h2
  subst h2
  exact he

theorem month0Ok_sbSet_ne {sb : ServiceBudget} {i : Nat}
    {e : BudgetMonthEntry} (hi : i ≠ 0) :
    month0Ok (sbSet sb i e) = month0Ok sb := by
  rw [month0Ok, month0Ok, sbGet_sbSet]
  rw [if_neg (fun h => hi h.symm)]

theorem month0Ok_write {sb : ServiceBudget} {i : Nat} {e : BudgetMonthEntry}
    {f : BudgetFieldKey} {v : ℚ} {b : Bool}
    (hok : month0Ok sb = true) (he : sbGet sb i = some e)
    (hb : i = 0 → b = false) :
    month0Ok (sbSet sb i (e.set f (some ⟨v, b⟩))) = true := by
  by_cases hi : i = 0
  · subst hi
    rw [hb rfl]
    exact month0Ok_sbSet_zero
      (entryOk_set_false f v (month0Ok_iff.mp hok e he))
  · rw [month0Ok_sbSet_ne hi]
    exact hok

theorem month0Ok_umf0 {sb : ServiceBudget} {f : BudgetFieldKey} {v : ℚ}
    (hok : month0Ok sb = true) :
    month0Ok (sbSet sb 0 (updateMonthField (sbGet sb 0) f v false)) = true := by
  cases h0 : sbGet sb 0 with
  | none =>
    apply month0Ok_sbSet_zero
    apply entryOk_set_false
    intro g pf h
    cases g <;> exact absurd h (by simp [emptyMonthEntry, BudgetMonthEntry.get])
  | some e =>
    apply month0Ok_sbSet_zero
    exact entryOk_set_false f v (month0Ok_iff.mp hok e h0)

theorem propagateBaseline_month0 (f : BudgetFieldKey) (v : ℚ) :
    ∀ (l : List Nat) (sb sb' : ServiceBudget),
      propagateBaseline f v l sb = some sb' →
      month0Ok sb = true → month0Ok sb' = true := by
  intro l
  induction l with
  | nil =>
    intro sb sb' h hok
    injection h with h2
    exact h2 ▸ hok
  | cons i rest ih =>
    intro sb sb' h hok
    cases he : sbGet sb i with
    | none => rw [propagateBaseline, he] at h; exact absurd h (by simp)
    | some e =>
      cases hpf : e.get f with
      | none =>
        rw [propagateBaseline, he] at h
        simp only [Option.bind_eq_bind, Option.some_bind, hpf] at h
        exact absurd h (by simp)
      | some pf =>
        rw [propagateBaseline, he] at h
        simp only [Option.bind_eq_bind, Option.some_bind, hpf] at h
        by_cases hov : pf.isOverridden = true
        · rw [if_pos hov] at h
          exact ih sb sb' h hok
        · rw [if_neg hov] at h
          refine ih _ sb' h ?_
          exact month0Ok_write hok he (fun _ => rfl)

theorem propagateEdit_month0 (f : BudgetFieldKey) (v : ℚ) :
    ∀ (l : List Nat) (sb sb' : ServiceBudget),
      propagateEdit f v l sb = some sb' →
      month0Ok sb = true → month0Ok sb' = true := by
  intro l
  induction l with
  | nil =>
    intro sb sb' h hok
    injection h with h2
    exact h2 ▸ hok
  | cons i rest ih =>
    intro sb sb' h hok
    cases he : sbGet sb i with
    | none => rw [propagateEdit, he] at h; exact absurd h (by simp)
    | some e =>
      cases hpf : e.get f with
      | none =>
        rw [propagateEdit, he] at h
        simp only [Option.bind_eq_bind, Option.some_bind, hpf] at h
        exact absurd h (by simp)
      | some pf =>
        rw [propagateEdit, he] at h
        simp only [Option.bind_eq_bind, Option.some_bind, hpf] at h
        by_cases hov : pf.isOverridden = true
        · rw [if_pos hov] at h
          exact ih sb sb' h hok
        · rw [if_neg hov] at h
          refine ih _ sb' h ?_
          exact month0Ok_write hok he (fun _ => rfl)

theorem bulkLoop_month0 (f : BudgetFieldKey) (fromMonth : Nat)
    (mult minv : ℚ) (comp : Bool) :
    ∀ (l : List Nat) (sb sb' : ServiceBudget),
      bulkLoop f fromMonth mult minv comp l sb = some sb' →
      month0Ok sb = true → month0Ok sb' = true := by
  intro l
  induction l with
  | nil =>
    intro sb sb' h hok
    injection h with h2
    exact h2 ▸ hok
  | cons m rest ih =>
    intro sb sb' h hok
    cases he : sbGet sb m with
    | none => rw [bulkLoop, he] at h; exact absurd h (by simp)
    | some e =>
      cases hpf : e.get f with
      | none =>
        rw [bulkLoop, he] at h
        simp only [Option.bind_eq_bind, Option.some_bind, hpf] at h
        exact absurd h (by simp)
      | some pf =>
        rw [bulkLoop, he] at h
        simp only [Option.bind_eq_bind, Option.some_bind, hpf] at h
        refine ih _ sb' h ?_
        refine month0Ok_write hok he (fun h0 => ?_)
        subst h0
        rfl

theorem deepClone_sbGet {sb c : ServiceBudget}
    (h : deepCloneBudget sb = some c) :
    ∀ j, sbGet c j = if j ∈ List.range 12 then sbGet sb j else none := by
  have main : ∀ (l : List Nat) (c2 : List (Nat × BudgetMonthEntry)),
      l.mapM (fun i => (sbGet sb i).bind (fun e => some (i, e))) = some c2 →
      ∀ j, sbGet c2 j = if j ∈ l then sbGet sb j else none := by
    intro l
    induction l with
    | nil =>
      intro c2 h2 j
      injection h2 with h3
      subst h3
      simp [sbGet]
    | cons i rest ih =>
      intro c2 h2 j
      rw [List.mapM_cons] at h2
      cases he : sbGet sb i with
      | none => rw [he] at h2; exact absurd h2 (by simp)
      | some e =>
        rw [he] at h2
        cases hrest : rest.mapM
            (fun i => (sbGet sb i).bind (fun e => some (i, e))) with
        | none => rw [hrest] at h2; exact absurd h2 (by simp)
        | some ct =>
          rw [hrest] at h2
          simp only [Option.bind_eq_bind, Option.some_bind, Option.pure_def,
            Option.some.injEq] at h2
          subst h2
          by_cases hj : j = i
          · subst hj
            rw [sbGet, if_pos rfl, he]
            simp
          · rw [sbGet, if_neg hj, ih ct hrest j]
            by_cases hjr : j ∈ rest
            · simp [hjr]
            · have : ¬ j ∈ i :: rest := by simp [hj, hjr]
              simp [hjr, this]
  exact main (List.range 12) c h

theorem deepClone_month0 {sb c : ServiceBudget}
    (h : deepCloneBudget sb = some c) (hok : month0Ok sb = true) :
    month0Ok c = true := by
  have h0 : sbGet c 0 = sbGet sb 0 := by
    rw [deepClone_sbGet h 0, if_pos (by simp)]
  rw [month0Ok, h0, ← month0Ok]
  exact hok

theorem applyFieldChange_month0 {cur next : ServiceBudget} {mi : Nat}
    {f : BudgetFieldKey} {v : ℚ}
    (h : applyFieldChange cur mi f v = some next)
    (hok : month0Ok cur = true) : month0Ok next = true := by
  rw [applyFieldChange] at h
  cases hc : deepCloneBudget cur with
  | none => rw [hc] at h; exact absurd h (by simp)
  | some c =>
    rw [hc] at h
    cases he : sbGet c mi with
    | none =>
      simp only [Option.bind_eq_bind, Option.some_bind, he] at h
      exact absurd h (by simp)
    | some e =>
      simp only [Option.bind_eq_bind, Option.some_bind, he] at h
      have hcok : month0Ok c = true := deepClone_month0 hc hok
      have hwrite : month0Ok (sbSet c mi
          (e.set f (some ⟨v, decide (0 < mi)⟩))) = true := by
        refine month0Ok_write hcok he (fun h0 => ?_)
        subst h0
        rfl
      by_cases hmi : mi = 0
      · rw [if_pos hmi] at h
        exact propagateEdit_month0 f v _ _ next h hwrite
      · rw [if_neg hmi] at h
        injection h with h2
        exact h2 ▸ hwrite

theorem mapM_mem {α β : Type} {f : α → Option β} :
    ∀ {l : List α} {l2 : List β}, l.mapM f = some l2 →
      ∀ b ∈ l2, ∃ a ∈ l, f a = some b := by
  intro l
  induction l with
  | nil =>
    intro l2 h b hb
    injection h with h2
    subst h2
    exact absurd hb (by simp)
  | cons a t ih =>
    intro l2 h b hb
    rw [List.mapM_cons] at h
    cases hfa : f a with
    | none => rw [hfa] at h; exact absurd h (by simp)
    | some b0 =>
      rw [hfa] at h
      cases hft : t.mapM f with
      | none => rw [hft] at h; exact absurd h (by simp)
      | some bs =>
        rw [hft] at h
        simp only [Option.bind_eq_bind, Option.some_bind, Option.pure_def,
          Option.some.injEq] at h
        subst h
        rcases List.mem_cons.mp hb with h1 | h1
        · exact ⟨a, by simp, h1 ▸ hfa⟩
        · obtain ⟨a2, ha2, hfa2⟩ := ih hft b h1
          exact ⟨a2, by simp [ha2], hfa2⟩

theorem dataOk_mem {d : ModelData} (h : dataOk d = true) :
    ∀ {sid sb}, bdGet d.budgetData sid = some sb → month0Ok sb = true :=
  fun hb => List.all_eq_true.mp h _ (bdGet_mem hb)

theorem dataOk_bdSet {d : ModelData} {sid : String} {sb : ServiceBudget}
    (hd : d.budgetData.all (fun p => month0Ok p.2) = true)
    (hsb : month0Ok sb = true) :
    (bdSet d.budgetData sid sb).all (fun p => month0Ok p.2) = true := by
  rw [List.all_eq_true] at hd ⊢
  intro p hp
  rcases mem_bdSet hp with h1 | h1
  · rw [h1]
    exact hsb
  · exact hd p h1

theorem stateOk_models {s : AppState} (h : stateOk s = true) :
    ∀ m ∈ s.models, modelOk m = true :=
  List.all_eq_true.mp h

theorem modelOk_data {m : BudgetModel} (h : modelOk m = true) :
    dataOk m.data = true := by
  rw [modelOk, Bool.and_eq_true] at h
  exact h.1

theorem modelOk_versions (m : BudgetModel) (h : modelOk m = true) :
    ∀ v ∈ m.versions, dataOk v.data = true := by
  rw [modelOk, Bool.and_eq_true] at h
  have := h.2
  rw [List.all_eq_true] at this
  exact this

theorem modelOk_mk {m : BudgetModel} (hd : dataOk m.data = true)
    (hv : ∀ v ∈ m.versions, dataOk v.data = true) : modelOk m = true := by
  rw [modelOk, Bool.and_eq_true]
  exact ⟨hd, List.all_eq_true.mpr hv⟩

theorem stateOk_mk {s : AppState} (h : ∀ m ∈ s.models, modelOk m = true) :
    stateOk s = true :=
  List.all_eq_true.mpr h

theorem month0Ok_createServiceBudget (eff ovh : ℚ)
    (seed : Option InitialBudgetSeed) :
    month0Ok (createServiceBudget eff ovh seed) = true := by
  have hrw : createServiceBudget eff ovh seed =
      (List.range' 0 12).map (fun j =>
        (j, ⟨some ⟨max (match seed with
              | some s => s.consumption + s.monthlyGrowth * (j : ℚ)
              | none => 0) 0, decide (0 < j) && seed.isSome⟩,
          some ⟨eff, false⟩, some ⟨ovh, false⟩, some ⟨0, false⟩⟩)) := rfl
  rw [month0Ok_iff, hrw]
  intro e he
  rw [sbGet_range_map] at he
  rw [if_pos (by omega)] at he
  injection he with h2
  subst h2
  intro g pf h
  cases g <;>
    (simp only [BudgetMonthEntry.get] at h
     injection h with h3
     subst h3
     rfl)

theorem updateActiveModelData_ok {now : Int} {s : AppState}
    {u : ModelData → Option ModelData} {s' : AppState}
    (h : updateActiveModelData now s u = some s')
    (hs : stateOk s = true)
    (hu : ∀ d d', dataOk d = true → u d = some d' → dataOk d' = true) :
    stateOk s' = true := by
  rw [updateActiveModelData] at h
  cases hmap : s.models.mapM (fun m =>
      if s.activeModelId = some m.id then do
        let d ← u m.data
        pure { m with data := d, updatedAt := now }
      else pure m) with
  | none => rw [hmap] at h; exact absurd h (by simp)
  | some models =>
    rw [hmap] at h
    simp only [Option.bind_eq_bind, Option.some_bind, Option.some.injEq,
      pure] at h
    subst h
    apply stateOk_mk
    intro m' hm'
    obtain ⟨m, hm, hfm⟩ := mapM_mem hmap m' hm'
    have hmok := stateOk_models hs m hm
    by_cases hact : s.activeModelId = some m.id
    · rw [if_pos hact] at hfm
      cases hud : u m.data with
      | none => rw [hud] at hfm; exact absurd hfm (by simp)
      | some d' =>
        rw [hud] at hfm
        simp only [Option.bind_eq_bind, Option.some_bind, pure,
          Option.some.injEq] at hfm
        subst hfm
        exact modelOk_mk (hu m.data d' (modelOk_data hmok) hud)
          (fun v hv => modelOk_versions m hmok v hv)
    · rw [if_neg hact] at hfm
      injection hfm with h2
      subst h2
      exact hmok

theorem stateOk_map (s : AppState) (g : BudgetModel → BudgetModel)
    (hg : ∀ m ∈ s.models, modelOk (g m) = true) :
    stateOk { s with models := s.models.map g } = true := by
  apply stateOk_mk
  intro m' hm'
  obtain ⟨m, hm, rfl⟩ := List.mem_map.mp hm'
  exact hg m hm

/-- Payloads whose contents the invariant depends on must themselves satisfy
it: the edit-session budget handed to SET_SERVICE_BUDGET, and external
models/states handed to the import and load actions. -/
def actionOk (a : AppAction) : Prop :=
  match a with
  | .setServiceBudget _ sb => month0Ok sb = true
  | .importModel p => modelOk p = true
  | .importModelMerge p => modelOk p = true
  | .loadState s0 => stateOk s0 = true
  | _ => True

theorem editOk_spec {st : EditState} (h : editOk st = true) :
    month0Ok st.current = true ∧
    (∀ b ∈ st.undoStack, month0Ok b = true) ∧
    (∀ b ∈ st.redoStack, month0Ok b = true) ∧
    (∀ b, st.preChange = some b → month0Ok b = true) := by
  rw [editOk] at h
  simp only [Bool.and_eq_true, List.all_eq_true] at h
  obtain ⟨⟨⟨h1, h2⟩, h3⟩, h4⟩ := h
  refine ⟨h1, h2, h3, ?_⟩
  intro b hb
  rw [hb] at h4
  exact h4

theorem editOk_mk {st : EditState} (h1 : month0Ok st.current = true)
    (h2 : ∀ b ∈ st.undoStack, month0Ok b = true)
    (h3 : ∀ b ∈ st.redoStack, month0Ok b = true)
    (h4 : ∀ b, st.preChange = some b → month0Ok b = true) :
    editOk st = true := by
  rw [editOk]
  simp only [Bool.and_eq_true, List.all_eq_true]
  refine ⟨⟨⟨h1, h2⟩, h3⟩, ?_⟩
  cases hpc : st.preChange with
  | none => rfl
  | some b => exact h4 b hpc

/-- C8: month 0's `isOverridden` flags are false in every budget of every
model (live data and version snapshots): the invariant holds for freshly
created service budgets and is preserved by every reducer action — with
SET_SERVICE_BUDGET payloads coming from an invariant-respecting edit
session, and imported/loaded payloads respecting it — and the transient
edit session itself preserves it across all of its actions. -/
theorem budgetter_C8_month0_invariant :
    (∀ (eff ovh : ℚ) (seed : Option InitialBudgetSeed),
      month0Ok (createServiceBudget eff ovh seed) = true) ∧
    (∀ (o : Oracle) (s : AppState) (a : AppAction) (s' : AppState),
      stateOk s = true → actionOk a → appReducer o s a = some s' →
      stateOk s' = true) ∧
    (∀ (st : EditState) (a : EditAction) (st' : EditState),
      editOk st = true → editReducer st a = some st' →
      editOk st' = true) := by
  refine ⟨month0Ok_createServiceBudget, ?_, ?_⟩
  · intro o s a s' hs hok hred
    cases a with
    | createModel name =>
      simp only [appReducer, Option.some.injEq] at hred
      subst hred
      apply stateOk_mk
      intro m hm
      rcases List.mem_append.mp hm with h1 | h1
      · exact stateOk_models hs m h1
      · rcases List.mem_singleton.mp h1 with rfl
        rfl
    | renameModel modelId name =>
      simp only [appReducer, Option.some.injEq] at hred
      subst hred
      refine stateOk_map s _ (fun m hm => ?_)
      have hmok := stateOk_models hs m hm
      by_cases hid : m.id = modelId
      · rw [if_pos hid]
        exact modelOk_mk (modelOk_data hmok)
          (fun v hv => modelOk_versions m hmok v hv)
      · rw [if_neg hid]
        exact hmok
    | deleteModel modelId =>
      simp only [appReducer, Option.some.injEq] at hred
      subst hred
      apply stateOk_mk
      intro m hm
      exact stateOk_models hs m (List.mem_of_mem_filter hm)
    | switchModel modelId =>
      simp only [appReducer, Option.some.injEq] at hred
      subst hred
      exact stateOk_mk (fun m hm => stateOk_models hs m hm)
    | duplicateModel modelId name =>
      simp only [appReducer] at hred
      cases hfind : s.models.find? (fun m => m.id == modelId) with
      | none =>
        rw [hfind] at hred
        injection hred with h2
        subst h2
        exact hs
      | some source =>
        rw [hfind] at hred
        injection hred with h2
        subst h2
        apply stateOk_mk
        intro m hm
        rcases List.mem_append.mp hm with h1 | h1
        · exact stateOk_models hs m h1
        · rcases List.mem_singleton.mp h1 with rfl
          have hsok := stateOk_models hs source
            (List.mem_of_find?_eq_some hfind)
          have hdm := modelOk_data hsok
          exact modelOk_mk hdm (by simp)
    | saveVersion name shared =>
      simp only [appReducer] at hred
      cases hfind : s.models.find? (fun m => some m.id == s.activeModelId) with
      | none =>
        rw [hfind] at hred
        injection hred with h2
        subst h2
        exact hs
      | some activeModel =>
        rw [hfind] at hred
        injection hred with h2
        subst h2
        have haok := stateOk_models hs activeModel
          (List.mem_of_find?_eq_some hfind)
        have hda := modelOk_data haok
        refine stateOk_map s _ (fun m hm => ?_)
        have hmok := stateOk_models hs m hm
        have hdm := modelOk_data hmok
        by_cases hact : (some m.id == s.activeModelId) = true
        · rw [if_pos hact]
          refine modelOk_mk hdm ?_
          intro v hv
          rcases List.mem_append.mp hv with h1 | h1
          · exact modelOk_versions m hmok v h1
          · rcases List.mem_singleton.mp h1 with rfl
            exact hda
        · rw [if_neg hact]
          exact hmok
    | restoreVersion versionNumber =>
      simp only [appReducer] at hred
      cases hfind : s.models.find? (fun m => some m.id == s.activeModelId) with
      | none =>
        rw [hfind] at hred
        injection hred with h2
        subst h2
        exact hs
      | some model =>
        cases hvf : model.versions.find? (fun v => v.number == versionNumber) with
        | none =>
          simp only [hfind, hvf, Option.some.injEq] at hred
          subst hred
          exact hs
        | some version =>
          simp only [hfind, hvf, Option.some.injEq] at hred
          subst hred
          have hmok0 := stateOk_models hs model
            (List.mem_of_find?_eq_some hfind)
          have hvok := modelOk_versions model hmok0 version
            (List.mem_of_find?_eq_some hvf)
          refine stateOk_map s _ (fun m hm => ?_)
          have hmok := stateOk_models hs m hm
          by_cases hact : (some m.id == s.activeModelId) = true
          · rw [if_pos hact]
            exact modelOk_mk hvok (fun v hv => modelOk_versions m hmok v hv)
          · rw [if_neg hact]
            exact hmok
    | deleteVersion versionNumber =>
      simp only [appReducer, Option.some.injEq] at hred
      subst hred
      refine stateOk_map s _ (fun m hm => ?_)
      have hmok := stateOk_models hs m hm
      have hdm := modelOk_data hmok
      by_cases hact : (some m.id == s.activeModelId) = true
      · rw [if_pos hact]
        refine modelOk_mk hdm ?_
        intro v hv
        exact modelOk_versions m hmok v (List.mem_of_mem_filter hv)
      · rw [if_neg hact]
        exact hmok
    | toggleVersionShared versionNumber =>
      simp only [appReducer, Option.some.injEq] at hred
      subst hred
      refine stateOk_map s _ (fun m hm => ?_)
      have hmok := stateOk_models hs m hm
      have hdm := modelOk_data hmok
      by_cases hact : (some m.id == s.activeModelId) = true
      · rw [if_pos hact]
        refine modelOk_mk hdm ?_
        intro v hv
        obtain ⟨v0, hv0, rfl⟩ := List.mem_map.mp hv
        by_cases hvn : v0.number = versionNumber
        · rw [if_pos hvn]
          exact modelOk_versions m hmok v0 hv0
        · rw [if_neg hvn]
          exact modelOk_versions m hmok v0 hv0
      · rw [if_neg hact]
        exact hmok
    | addService payload seed =>
      simp only [appReducer] at hred
      refine updateActiveModelData_ok hred hs ?_
      intro d d' hd hu
      injection hu with h2
      subst h2
      exact dataOk_bdSet hd (month0Ok_createServiceBudget _ _ _)
    | updateService payload =>
      simp only [appReducer] at hred
      refine updateActiveModelData_ok hred hs ?_
      intro d d' hd hu
      injection hu with h2
      subst h2
      exact hd
    | deleteService serviceId =>
      simp only [appReducer] at hred
      refine updateActiveModelData_ok hred hs ?_
      intro d d' hd hu
      injection hu with h2
      subst h2
      simp only [dataOk, bdRemove, List.all_eq_true] at hd ⊢
      intro p hp
      exact hd p (List.mem_of_mem_filter hp)
    | setBudgetConfig payload =>
      simp only [appReducer] at hred
      refine updateActiveModelData_ok hred hs ?_
      intro d d' hd hu
      injection hu with h2
      subst h2
      exact hd
    | setBudgetField serviceId monthIndex field value =>
      simp only [appReducer] at hred
      refine updateActiveModelData_ok hred hs ?_
      intro d d' hd hu
      rw [setBudgetFieldData] at hu
      have hsb : month0Ok ((bdGet d.budgetData serviceId).getD []) = true := by
        cases hb : bdGet d.budgetData serviceId with
        | none => rfl
        | some sb => exact dataOk_mem hd hb
      by_cases hmi : monthIndex = 0
      · rw [if_pos hmi] at hu
        simp only [Option.bind_eq_bind, Option.pure_def] at hu
        cases hprop : propagateBaseline field value (List.range' 1 11)
            (sbSet ((bdGet d.budgetData serviceId).getD []) 0
              (updateMonthField
                (sbGet ((bdGet d.budgetData serviceId).getD []) 0)
                field value false)) with
        | none =>
          rw [hprop] at hu
          simp only [Option.none_bind] at hu
          exact absurd hu (by simp)
        | some sb' =>
          rw [hprop] at hu
          simp only [Option.some_bind, Option.some.injEq] at hu
          subst hu
          exact dataOk_bdSet hd
            (propagateBaseline_month0 field value _ _ sb' hprop
              (month0Ok_umf0 hsb))
      · rw [if_neg hmi] at hu
        injection hu with h2
        subst h2
        refine dataOk_bdSet hd ?_
        rw [month0Ok_sbSet_ne hmi]
        exact hsb
    | clearOverride serviceId monthIndex field =>
      simp only [appReducer] at hred
      by_cases hmi : monthIndex = 0
      · rw [if_pos hmi] at hred
        injection hred with h2
        subst h2
        exact hs
      · rw [if_neg hmi] at hred
        refine updateActiveModelData_ok hred hs ?_
        intro d d' hd hu
        rw [clearOverrideData] at hu
        have hsb : month0Ok ((bdGet d.budgetData serviceId).getD []) = true := by
          cases hb : bdGet d.budgetData serviceId with
          | none => rfl
          | some sb => exact dataOk_mem hd hb
        cases he0 : sbGet ((bdGet d.budgetData serviceId).getD []) 0 with
        | none =>
          rw [he0] at hu
          exact absurd hu (by simp)
        | some e0 =>
          rw [he0] at hu
          cases hpf : e0.get field with
          | none =>
            simp only [Option.bind_eq_bind, Option.some_bind, hpf] at hu
            exact absurd hu (by simp)
          | some pf0 =>
            simp only [Option.bind_eq_bind, Option.some_bind, hpf,
              Option.pure_def, Option.some.injEq] at hu
            subst hu
            refine dataOk_bdSet hd ?_
            rw [month0Ok_sbSet_ne hmi]
            exact hsb
    | setServiceBudget serviceId serviceBudget =>
      simp only [appReducer] at hred
      refine updateActiveModelData_ok hred hs ?_
      intro d d' hd hu
      injection hu with h2
      subst h2
      exact dataOk_bdSet hd hok
    | importModel imported =>
      simp only [appReducer] at hred
      by_cases hany : (s.models.any (fun m => m.id == imported.id)) = true
      · rw [if_pos hany] at hred
        injection hred with h2
        subst h2
        refine stateOk_map s _ (fun m hm => ?_)
        by_cases hid : m.id = imported.id
        · rw [if_pos hid]
          exact hok
        · rw [if_neg hid]
          exact stateOk_models hs m hm
      · rw [if_neg hany] at hred
        injection hred with h2
        subst h2
        apply stateOk_mk
        intro m hm
        rcases List.mem_append.mp hm with h1 | h1
        · exact stateOk_models hs m h1
        · rcases List.mem_singleton.mp h1 with rfl
          exact hok
    | importModelMerge imported =>
      simp only [appReducer] at hred
      cases hfind : s.models.find? (fun m => m.id == imported.id) with
      | none =>
        rw [hfind] at hred
        injection hred with h2
        subst h2
        exact hs
      | some existing =>
        rw [hfind] at hred
        injection hred with h2
        subst h2
        have heok := stateOk_models hs existing
          (List.mem_of_find?_eq_some hfind)
        refine stateOk_map s _ (fun m hm => ?_)
        have hmok := stateOk_models hs m hm
        have hdm := modelOk_data hmok
        by_cases hid : m.id = imported.id
        · rw [if_pos hid]
          refine modelOk_mk hdm ?_
          intro w hw
          obtain ⟨-, u, hu, hwu⟩ := mem_renumberFrom hw
          have hwdata : w.data = u.data := by rw [hwu]
          rw [hwdata]
          have humem : u ∈ existing.versions ++ imported.versions.filter
              (fun v => !((existing.versions.map (·.timestamp)).contains
                v.timestamp)) :=
            ((sortByTimestamp_perm _).mem_iff).mp hu
          rcases List.mem_append.mp humem with h1 | h1
          · exact modelOk_versions existing heok u h1
          · exact modelOk_versions imported hok u
              (List.mem_of_mem_filter h1)
        · rw [if_neg hid]
          exact hmok
    | loadState payload =>
      injection hred with h2
      subst h2
      exact hok
  · intro st a st' hst hred
    obtain ⟨hcur, hundo, hredo, hpre⟩ := editOk_spec hst
    cases a with
    | setValue monthIndex field value =>
      simp only [editReducer] at hred
      cases hpc : st.preChange with
      | some pc =>
        rw [hpc] at hred
        cases happ : applyFieldChange st.current monthIndex field value with
        | none =>
          simp only [happ, Option.bind_eq_bind, Option.some_bind] at hred
          exact absurd hred (by simp)
        | some next =>
          simp only [happ, Option.bind_eq_bind, Option.some_bind,
            Option.some.injEq] at hred
          subst hred
          refine editOk_mk (applyFieldChange_month0 happ hcur) hundo hredo ?_
          intro b hb
          injection hb with h2
          subst h2
          exact hpre pc hpc
      | none =>
        rw [hpc] at hred
        cases hc : deepCloneBudget st.current with
        | none =>
          simp only [hc, Option.bind_eq_bind, Option.none_bind] at hred
          exact absurd hred (by simp)
        | some c =>
          cases happ : applyFieldChange st.current monthIndex field value with
          | none =>
            simp only [hc, happ, Option.bind_eq_bind, Option.some_bind,
              Option.none_bind] at hred
            exact absurd hred (by simp)
          | some next =>
            simp only [hc, happ, Option.bind_eq_bind, Option.some_bind,
              Option.some.injEq] at hred
            subst hred
            refine editOk_mk (applyFieldChange_month0 happ hcur) hundo hredo ?_
            intro b hb
            injection hb with h2
            subst h2
            exact deepClone_month0 hc hcur
    | setFieldCommit monthIndex field value =>
      simp only [editReducer] at hred
      cases hc : deepCloneBudget st.current with
      | none =>
        simp only [hc, Option.bind_eq_bind, Option.none_bind] at hred
        exact absurd hred (by simp)
      | some snapshot =>
        cases happ : applyFieldChange st.current monthIndex field value with
        | none =>
          simp only [hc, happ, Option.bind_eq_bind, Option.some_bind,
            Option.none_bind] at hred
          exact absurd hred (by simp)
        | some next =>
          simp only [hc, happ, Option.bind_eq_bind, Option.some_bind,
            Option.some.injEq] at hred
          subst hred
          refine editOk_mk (applyFieldChange_month0 happ hcur) ?_ (by simp)
            (by simp)
          intro b hb
          rcases List.mem_append.mp hb with h1 | h1
          · exact hundo b h1
          · rcases List.mem_singleton.mp h1 with rfl
            exact deepClone_month0 hc hcur
    | clearOverride monthIndex field =>
      simp only [editReducer] at hred
      by_cases hmi : monthIndex = 0
      · rw [if_pos hmi] at hred
        injection hred with h2
        subst h2
        exact hst
      · rw [if_neg hmi] at hred
        cases hc : deepCloneBudget st.current with
        | none =>
          simp only [hc, Option.bind_eq_bind, Option.none_bind] at hred
          exact absurd hred (by simp)
        | some c =>
          rw [hc] at hred
          cases he0 : sbGet c 0 with
          | none =>
            simp only [he0, Option.bind_eq_bind, Option.some_bind,
              Option.none_bind] at hred
            exact absurd hred (by simp)
          | some e0 =>
            cases hpf : e0.get field with
            | none =>
              simp only [he0, hpf, Option.bind_eq_bind, Option.some_bind,
                Option.none_bind] at hred
              exact absurd hred (by simp)
            | some pf0 =>
              cases he : sbGet c monthIndex with
              | none =>
                simp only [he0, hpf, he, Option.bind_eq_bind,
                  Option.some_bind, Option.none_bind] at hred
                exact absurd hred (by simp)
              | some e =>
                simp only [he0, hpf, he, Option.bind_eq_bind,
                  Option.some_bind, Option.some.injEq] at hred
                subst hred
                have hcok := deepClone_month0 hc hcur
                refine editOk_mk ?_ ?_ (by simp) (by simp)
                · exact month0Ok_write hcok he (fun _ => rfl)
                · intro b hb
                  rcases List.mem_append.mp hb with h1 | h1
                  · exact hundo b h1
                  · rcases List.mem_singleton.mp h1 with rfl
                    exact hcok
    | bulkAdjust field fromMonth multiplier min compound =>
      simp only [editReducer] at hred
      cases hc : deepCloneBudget st.current with
      | none =>
        simp only [hc, Option.bind_eq_bind, Option.none_bind] at hred
        exact absurd hred (by simp)
      | some c =>
        cases hbl : bulkLoop field fromMonth multiplier min compound
            (List.range' fromMonth (12 - fromMonth)) c with
        | none =>
          simp only [hc, hbl, Option.bind_eq_bind, Option.some_bind,
            Option.none_bind] at hred
          exact absurd hred (by simp)
        | some next =>
          simp only [hc, hbl, Option.bind_eq_bind, Option.some_bind,
            Option.some.injEq] at hred
          subst hred
          have hcok := deepClone_month0 hc hcur
          refine editOk_mk
            (bulkLoop_month0 field fromMonth multiplier min compound _ _
              next hbl hcok) ?_ (by simp) (by simp)
          intro b hb
          rcases List.mem_append.mp hb with h1 | h1
          · exact hundo b h1
          · rcases List.mem_singleton.mp h1 with rfl
            exact hcok
    | commit =>
      simp only [editReducer] at hred
      cases hpc : st.preChange with
      | none =>
        rw [hpc] at hred
        injection hred with h2
        subst h2
        exact hst
      | some pc =>
        rw [hpc] at hred
        injection hred with h2
        subst h2
        refine editOk_mk hcur ?_ (by simp) (by simp)
        intro b hb
        rcases List.mem_append.mp hb with h1 | h1
        · exact hundo b h1
        · rcases List.mem_singleton.mp h1 with rfl
          exact hpre b hpc
    | undo =>
      simp only [editReducer] at hred
      cases hlast : st.undoStack.getLast? with
      | none =>
        rw [hlast] at hred
        injection hred with h2
        subst h2
        exact hst
      | some prev =>
        rw [hlast] at hred
        cases hc : deepCloneBudget st.current with
        | none =>
          simp only [hc, Option.bind_eq_bind, Option.none_bind] at hred
          exact absurd hred (by simp)
        | some cur =>
          simp only [hc, Option.bind_eq_bind, Option.some_bind,
            Option.some.injEq] at hred
          subst hred
          have hprevmem : prev ∈ st.undoStack := by
            have hne : st.undoStack ≠ [] := by
              intro h0
              rw [h0] at hlast
              exact absurd hlast (by simp)
            have := List.getLast?_eq_getLast st.undoStack hne
            rw [this] at hlast
            injection hlast with h2
            exact h2 ▸ List.getLast_mem hne
          refine editOk_mk (hundo prev hprevmem) ?_ ?_ (by simp)
          · intro b hb
            exact hundo b ((List.dropLast_sublist _).subset hb)
          · intro b hb
            rcases List.mem_append.mp hb with h1 | h1
            · exact hredo b h1
            · rcases List.mem_singleton.mp h1 with rfl
              exact deepClone_month0 hc hcur
    | redo =>
      simp only [editReducer] at hred
      cases hlast : st.redoStack.getLast? with
      | none =>
        rw [hlast] at hred
        injection hred with h2
        subst h2
        exact hst
      | some nxt =>
        rw [hlast] at hred
        cases hc : deepCloneBudget st.current with
        | none =>
          simp only [hc, Option.bind_eq_bind, Option.none_bind] at hred
          exact absurd hred (by simp)
        | some cur =>
          simp only [hc, Option.bind_eq_bind, Option.some_bind,
            Option.some.injEq] at hred
          subst hred
          have hnxtmem : nxt ∈ st.redoStack := by
            have hne : st.redoStack ≠ [] := by
              intro h0
              rw [h0] at hlast
              exact absurd hlast (by simp)
            have := List.getLast?_eq_getLast st.redoStack hne
            rw [this] at hlast
            injection hlast with h2
            exact h2 ▸ List.getLast_mem hne
          refine editOk_mk (hredo nxt hnxtmem) ?_ ?_ (by simp)
          · intro b hb
            rcases List.mem_append.mp hb with h1 | h1
            · exact hundo b h1
            · rcases List.mem_singleton.mp h1 with rfl
              exact deepClone_month0 hc hcur
          · intro b hb
            exact hredo b ((List.dropLast_sublist _).subset hb)

/-- Witness for C8 at concrete inputs: ADD_SERVICE on the sample state
produces a state still satisfying the invariant, and COMMIT preserves it in
a concrete edit session. -/
theorem budgetter_C8_witness :
    (∃ s', appReducer sampleOracle state1
        (.addService ⟨"Svc", "GB", 1, false, 80, 10⟩ none) = some s' ∧
        stateOk s' = true) ∧
    editOk ⟨sampleBudget, [], [], none⟩ = true := by
  obtain ⟨s', hs'⟩ : ∃ s', appReducer sampleOracle state1
      (.addService ⟨"Svc", "GB", 1, false, 80, 10⟩ none) = some s' := ⟨_, rfl⟩
  refine ⟨⟨s', hs', ?_⟩, ?_⟩
  · exact budgetter_C8_month0_invariant.2.1 sampleOracle state1
      (.addService ⟨"Svc", "GB", 1, false, 80, 10⟩ none) s' (by decide)
      trivial hs'
  · exact budgetter_C8_month0_invariant.2.2 ⟨sampleBudget, [], [], none⟩
      .commit ⟨sampleBudget, [], [], none⟩ (by decide) rfl

end CB
